import Mathlib

/-!
FocusPulse / ByteBreak: time accounting and aggregation.

A shallow embedding of the accounting logic of

* `src/extension/background.js` (classifier, hostname normalisation, the
  heartbeat `saveTimeSpent`, `startTracking`, `stopTracking`), and
* `src/backend/server.js` (`POST /track`, `GET /summary`).

Modelling conventions.

* JavaScript strings are Lean strings, compared and searched as character
  lists (`includes`, `startsWith`, `replace` with a string pattern).
* A JavaScript object used as a dictionary (`timeData`, `trackingData.summary`)
  is the list of its own properties in `for ... in` enumeration order:
  array-index keys first in ascending numeric order, then the other keys in
  creation order.  A read `obj[k]` of a key that is no own property but names a
  member of `Object.prototype` (`constructor`, `__proto__`, ...) finds the
  inherited member: `accumulate` models this for `timeData`; on the server
  `trackJson` leaves such a domain unanswered (`none`), and `track` is the
  handler for the other domains.
* A request body is a record of JSON values (`JsonBody`); `trackJson` applies
  the guard of line 59 to it and hands a well-typed body (`TrackBody`: string
  fields, a natural `timeSpent`) to `track`.  A body that passes the guard with
  a field of another type is left unanswered (`none`): its effects go through
  JavaScript's coercions and its answer is 200 or 500, never 400.
* Counters and `timeSpent` on the server are natural numbers, on the extension
  side integers; integer arithmetic on doubles is exact below `2 ^ 53`, which
  the model assumes of every sum.
* The one place where the source leaves the integers,
  `Math.round((productive / total) * 100)`, is modelled with IEEE-754 binary64
  rounding (round to nearest, ties to even) on exact fractions.
* Platform services are parameters: the URL parser (`hostnameOf`), the clock
  readings (`now`, milliseconds since the epoch), the ISO rendering of the
  current instant (`isoNow`) and the time-zone data of the machine (`TimeZone`).
  `Date` arithmetic follows the ECMAScript definitions of `LocalTime`, `UTC`,
  `MakeDay` and `Day` over the proleptic Gregorian calendar.
-/

namespace FocusPulse

/-! ## Strings -/

/-- Search of `site` in `s` at every start position: `s.includes(site)`. -/
def includesChars : List Char → List Char → Bool
  | [], site => site.isPrefixOf []
  | c :: cs, site => site.isPrefixOf (c :: cs) || includesChars cs site

/-- The method `String.prototype.includes`. -/
def includes (s site : String) : Bool := includesChars s.toList site.toList

/-- The method `String.prototype.startsWith`. -/
def startsWith (s pre : String) : Bool := pre.toList.isPrefixOf s.toList

/-- Removal of the first occurrence of `pat`, scanning from the left:
`s.replace(pat, '')` with a string pattern. -/
def replaceFirstChars (pat : List Char) : List Char → List Char
  | [] => []
  | c :: cs =>
    if pat.isPrefixOf (c :: cs) then (c :: cs).drop pat.length
    else c :: replaceFirstChars pat cs

/-- The call `s.replace(pat, '')` for a string pattern `pat`. -/
def replaceFirst (s pat : String) : String :=
  String.mk (replaceFirstChars pat.toList s.toList)

/-- The specification-side notion "`site` is a substring of `domain`". -/
def IsSubstring (site domain : String) : Prop := site.toList <:+: domain.toList

/-! ## Objects as dictionaries -/

/-- Value of a canonical array-index key (`"0"`, `"17"`, ... below `2^32 - 1`). -/
def arrayIndex? (k : String) : Option Nat :=
  let cs := k.toList
  if cs.isEmpty || !cs.all Char.isDigit then none
  else if cs.head? == some '0' && cs.length != 1 then none
  else
    let n := cs.foldl (fun acc c => 10 * acc + (c.toNat - 48)) 0
    if n < 4294967295 then some n else none

/-- Creation of a new own property `k`, placed where `for ... in` will
enumerate it. -/
def insertProp {β : Type} (k : String) (v : β) : List (String × β) → List (String × β)
  | [] => [(k, v)]
  | (k', v') :: rest =>
    match arrayIndex? k, arrayIndex? k' with
    | some n, some n' =>
      if n < n' then (k, v) :: (k', v') :: rest else (k', v') :: insertProp k v rest
    | some _, none => (k, v) :: (k', v') :: rest
    | none, _ => (k', v') :: insertProp k v rest

/-- Overwrite of the existing own property `k` in place. -/
def replaceProp {β : Type} (k : String) (v : β) : List (String × β) → List (String × β)
  | [] => []
  | (k', v') :: rest =>
    if k' = k then (k, v) :: rest else (k', v') :: replaceProp k v rest

/-- Assignment `obj[k] = v`. -/
def writeProp {β : Type} (k : String) (v : β) (obj : List (String × β)) : List (String × β) :=
  match obj.lookup k with
  | some _ => replaceProp k v obj
  | none => insertProp k v obj

/-- The names of the members of `Object.prototype`, which a plain object such as
`timeData` or `trackingData.summary` inherits. -/
def objectPrototypeKeys : List String :=
  ["constructor", "__defineGetter__", "__defineSetter__", "hasOwnProperty",
    "__lookupGetter__", "__lookupSetter__", "isPrototypeOf", "propertyIsEnumerable",
    "toString", "valueOf", "__proto__", "toLocaleString"]

/-! ## Extension: classification and hostname normalisation -/

def PRODUCTIVE_DOMAINS : List String := [
  "github.com", "stackoverflow.com", "leetcode.com", "codechef.com",
  "hackerrank.com", "coursera.org", "udemy.com", "udacity.com",
  "edx.org", "khanacademy.org", "freecodecamp.org", "codecademy.com",
  "developer.mozilla.org", "docs.python.org", "nodejs.org",
  "reactjs.org", "vuejs.org", "angular.io", "w3schools.com",
  "geeksforgeeks.org", "medium.com", "dev.to", "hashnode.dev"]

def UNPRODUCTIVE_DOMAINS : List String := [
  "facebook.com", "instagram.com", "twitter.com", "x.com",
  "snapchat.com", "tiktok.com", "reddit.com", "pinterest.com",
  "netflix.com", "youtube.com", "twitch.tv", "discord.com",
  "whatsapp.com", "telegram.org", "linkedin.com"]

/-- The expression `urlObj.hostname.replace('www.', '')` of `getDomain`. -/
def normalizeHostname (hostname : String) : String := replaceFirst hostname "www."

/-- Function `getDomain(url)`; `hostnameOf url = none` when `new URL(url)` throws,
and the result `none` is JavaScript `null`. -/
def getDomain (hostnameOf : String → Option String) (url : String) : Option String :=
  match hostnameOf url with
  | some hostname => some (normalizeHostname hostname)
  | none => none

/-- Function `classifyWebsite(domain)`; `none` is `null`, and the only falsy string
is the empty one. -/
def classifyWebsite (domain : Option String) : String :=
  match domain with
  | none => "neutral"
  | some d =>
    if d = "" then "neutral"
    else if PRODUCTIVE_DOMAINS.any (fun site => includes d site) then "productive"
    else if UNPRODUCTIVE_DOMAINS.any (fun site => includes d site) then "unproductive"
    else "neutral"

/-! ## Extension: the heartbeat and the local accumulator -/

/-- A browser tab, as far as the tracker reads it. -/
structure Tab where
  url : String
deriving DecidableEq, Repr

/-- One entry of the local table `timeData`. -/
structure SiteTime where
  domain : String
  productive : Int
  unproductive : Int
  neutral : Int
  total : Int
  category : String
deriving DecidableEq, Repr

/-- One call `sendToBackend(domain, timeSpent, category)`. -/
structure SyncCall where
  domain : String
  timeSpent : Int
  category : String
deriving DecidableEq, Repr

/-- The global state of the background worker, with the log of backend calls
issued so far (oldest first). -/
structure Tracker where
  currentTab : Option Tab
  startTime : Option Int
  trackingActive : Bool
  timeData : List (String × SiteTime)
  sent : List SyncCall
deriving DecidableEq, Repr

/-- The worker state at start-up with an empty local table. -/
def Tracker.init : Tracker :=
  { currentTab := none, startTime := none, trackingActive := false, timeData := [], sent := [] }

/-- The update `entry[category] += timeSpent` for a category produced by
`classifyWebsite`. -/
def SiteTime.addTo (e : SiteTime) (category : String) (timeSpent : Int) : SiteTime :=
  if category = "productive" then { e with productive := e.productive + timeSpent }
  else if category = "unproductive" then { e with unproductive := e.unproductive + timeSpent }
  else if category = "neutral" then { e with neutral := e.neutral + timeSpent }
  else e

/-- Lines 72-96 of `saveTimeSpent`, apart from the reset of `startTime`, when
`timeData[domain]` is an own entry or is created by line 73: add `timeSpent` to
the category counter and to `total`, and call the backend when the new total is
a multiple of 60. -/
def accumulateOwn (domain category : String) (timeSpent : Int)
    (timeData : List (String × SiteTime)) (sent : List SyncCall) :
    List (String × SiteTime) × List SyncCall :=
  let entry : SiteTime :=
    match timeData.lookup domain with
    | some e => e
    | none =>
      { domain := domain, productive := 0, unproductive := 0, neutral := 0, total := 0,
        category := category }
  let entry := entry.addTo category timeSpent
  let entry := { entry with total := entry.total + timeSpent }
  let timeData := writeProp domain entry timeData
  if entry.total % 60 = 0 then
    (timeData, sent ++ [{ domain := domain, timeSpent := 60, category := category }])
  else (timeData, sent)

/-- Lines 72-96 of `saveTimeSpent` apart from the reset of `startTime`.  When
`domain` is no own key of `timeData` but names a member of `Object.prototype`,
the read `timeData[domain]` of line 72 finds the inherited member, which is
truthy: no entry is created, lines 84-85 write `NaN` to that member, and
`NaN % 60 === 0` is false, so the table and the call log stay as they are. -/
def accumulate (domain category : String) (timeSpent : Int)
    (timeData : List (String × SiteTime)) (sent : List SyncCall) :
    List (String × SiteTime) × List SyncCall :=
  if timeData.lookup domain = none ∧ domain ∈ objectPrototypeKeys then (timeData, sent)
  else accumulateOwn domain category timeSpent timeData sent

/-- Function `saveTimeSpent()` run when `Date.now()` reads `now`. -/
def saveTimeSpent (hostnameOf : String → Option String) (now : Int) (s : Tracker) : Tracker :=
  match s.currentTab, s.startTime with
  | some tab, some start =>
    if start ≠ 0 ∧ s.trackingActive = true then
      let timeSpent := Int.fdiv (now - start) 1000
      if timeSpent > 0 then
        let domain := getDomain hostnameOf tab.url
        let category := classifyWebsite domain
        match domain with
        | some d =>
          if d ≠ "" then
            let r := accumulate d category timeSpent s.timeData s.sent
            { s with timeData := r.1, startTime := some now, sent := r.2 }
          else s
        | none => s
      else s
    else s
  | _, _ => s

/-- Function `stopTracking()`. -/
def stopTracking (hostnameOf : String → Option String) (now : Int) (s : Tracker) : Tracker :=
  let s := saveTimeSpent hostnameOf now s
  { s with trackingActive := false, currentTab := none, startTime := none }

/-- Function `startTracking(tab)`; `now` is the clock reading of the flush and
`now2` the later reading stored as the new start marker. -/
def startTracking (hostnameOf : String → Option String) (now now2 : Int) (tab : Option Tab)
    (s : Tracker) : Tracker :=
  match tab with
  | some t =>
    if startsWith t.url "http" || startsWith t.url "https" then
      let s := saveTimeSpent hostnameOf now s
      { s with currentTab := some t, startTime := some now2, trackingActive := true }
    else stopTracking hostnameOf now s
  | none => stopTracking hostnameOf now s

/-- The heartbeat of `setInterval`: `if (trackingActive) saveTimeSpent()`. -/
def heartbeat (hostnameOf : String → Option String) (now : Int) (s : Tracker) : Tracker :=
  if s.trackingActive then saveTimeSpent hostnameOf now s else s

/-- A run of `saveTimeSpent` calls at the clock readings `ticks`, in order. -/
def runTicks (hostnameOf : String → Option String) (ticks : List Int) (s : Tracker) : Tracker :=
  ticks.foldl (fun acc now => saveTimeSpent hostnameOf now acc) s

/-- The local total of a domain, `timeData[domain].total`, and 0 before the
domain is first seen. -/
def tableTotal (timeData : List (String × SiteTime)) (domain : String) : Int :=
  match timeData.lookup domain with
  | some e => e.total
  | none => 0

/-- Seconds pushed to the backend so far for a domain: the sum of `timeSpent`
over the recorded `sendToBackend` calls. -/
def pushedSeconds (sent : List SyncCall) (domain : String) : Int :=
  ((sent.filter (fun c => c.domain = domain)).map (fun c => c.timeSpent)).sum

/-- A sequence of attributions of whole seconds to one domain, starting from the
given table and call log. -/
def attributeAll (domain category : String) (amounts : List Int)
    (start : List (String × SiteTime) × List SyncCall) :
    List (String × SiteTime) × List SyncCall :=
  amounts.foldl (fun acc t => accumulate domain category t acc.1 acc.2) start

/-! ## Backend: the store and `POST /track` -/

/-- One Session Record of `trackingData.sessions`. -/
structure Session where
  domain : String
  timeSpent : Nat
  category : String
  timestamp : String
deriving DecidableEq, Repr

/-- One Domain Summary of `trackingData.summary`. -/
structure Summary where
  domain : String
  productive : Nat
  unproductive : Nat
  neutral : Nat
  unknown : Nat
  total : Nat
  category : String
deriving DecidableEq, Repr

/-- The in-memory store `trackingData`. -/
structure Store where
  sessions : List Session
  summary : List (String × Summary)
deriving DecidableEq, Repr

/-- The empty store `{ sessions: [], summary: {} }`. -/
def Store.empty : Store := { sessions := [], summary := [] }

/-- A well-typed body of a `POST /track` request, as `trackJson` hands it to
`track`: string `domain`, `category` and `timestamp`, a non-negative integer
`timeSpent`; `none` is an absent field. -/
structure TrackBody where
  domain : Option String
  timeSpent : Option Nat
  category : Option String
  timestamp : Option String
deriving DecidableEq, Repr

/-- The answers of `POST /track`: `200 {success, total}`, `400 {error}` and
`500 {error}`. -/
inductive TrackResponse where
  | ok (total : Nat)
  | invalidRequest
  | internalError
deriving DecidableEq, Repr

/-- The own property names of a Domain Summary, as listed in the object literal
of lines 73-81. -/
def summaryKeys : List String :=
  ["domain", "productive", "unproductive", "neutral", "unknown", "total", "category"]

/-- The test `summary[domain].hasOwnProperty(category)`. -/
def Summary.hasOwnProperty (_site : Summary) (key : String) : Bool := summaryKeys.contains key

/-- The update `site[catKey] += timeSpent`; on the two string fields `+=`
appends the decimal rendering of the number. -/
def Summary.addTo (site : Summary) (catKey : String) (timeSpent : Nat) : Summary :=
  if catKey = "productive" then { site with productive := site.productive + timeSpent }
  else if catKey = "unproductive" then { site with unproductive := site.unproductive + timeSpent }
  else if catKey = "neutral" then { site with neutral := site.neutral + timeSpent }
  else if catKey = "unknown" then { site with unknown := site.unknown + timeSpent }
  else if catKey = "total" then { site with total := site.total + timeSpent }
  else if catKey = "domain" then { site with domain := site.domain ++ toString timeSpent }
  else if catKey = "category" then { site with category := site.category ++ toString timeSpent }
  else site

/-- The expression `timestamp || new Date().toISOString()`, when the clock renders
as `isoNow`. -/
def stampOf (isoNow : String) (timestamp : Option String) : String :=
  match timestamp with
  | some ts => if ts = "" then isoNow else ts
  | none => isoNow

/-- The Domain Summary of a domain as `POST /track` sees it after line 82: the
stored one, or the zeroed one created on first sight (for an ordinary key, see
`track`). -/
def summaryOrFresh (summary : List (String × Summary)) (domain category : String) : Summary :=
  match summary.lookup domain with
  | some e => e
  | none =>
    { domain := domain, productive := 0, unproductive := 0, neutral := 0, unknown := 0,
      total := 0, category := category }

/-- Lines 71-87: the Domain Summary of `domain` after the ingestion of
`timeSpent` seconds with `category`. -/
def updatedSite (summary : List (String × Summary)) (domain category : String)
    (timeSpent : Nat) : Summary :=
  let site := summaryOrFresh summary domain category
  let catKey := if site.hasOwnProperty category then category else "unknown"
  let site := site.addTo catKey timeSpent
  { site with total := site.total + timeSpent }

/-- The handler of `POST /track` on a well-typed body, run when
`new Date().toISOString()` would give `isoNow`.  A string field is falsy when
absent or empty; `timeSpent` is only compared with `undefined`.  The domain is
taken to be an ordinary key: one that names a member of `Object.prototype` is
turned away by `trackJson` before it reaches this function. -/
def track (isoNow : String) (body : TrackBody) (st : Store) : TrackResponse × Store :=
  match body.domain, body.timeSpent, body.category with
  | some domain, some timeSpent, some category =>
    if domain = "" ∨ category = "" then (TrackResponse.invalidRequest, st)
    else
      let site := updatedSite st.summary domain category timeSpent
      (TrackResponse.ok site.total,
        { sessions := st.sessions ++
            [{ domain := domain, timeSpent := timeSpent, category := category,
               timestamp := stampOf isoNow body.timestamp }],
          summary := writeProp domain site st.summary })
  | _, _, _ => (TrackResponse.invalidRequest, st)

/-- A field of `req.body` as `express.json()` delivers it: absent (`undefined`), or
a parsed JSON value.  A number is held by its exact value, `infinite` is a
number too large for a double, and `compound` is an array or an object. -/
inductive JsonValue where
  | undefined
  | null
  | bool (b : Bool)
  | number (x : ℚ)
  | infinite
  | string (s : String)
  | compound
deriving DecidableEq

/-- The test `!v` of JavaScript on a JSON value. -/
def JsonValue.falsy : JsonValue → Bool
  | JsonValue.undefined => true
  | JsonValue.null => true
  | JsonValue.bool b => !b
  | JsonValue.number x => decide (x = 0)
  | JsonValue.infinite => false
  | JsonValue.string s => decide (s = "")
  | JsonValue.compound => false

/-- The body of a `POST /track` request, any JSON value in each field. -/
structure JsonBody where
  domain : JsonValue
  timeSpent : JsonValue
  category : JsonValue
  timestamp : JsonValue
deriving DecidableEq

/-- The value of a field that holds a non-negative integer. -/
def JsonValue.asNat? : JsonValue → Option Nat
  | JsonValue.number x => if x.den = 1 ∧ 0 ≤ x.num then some x.num.toNat else none
  | _ => none

/-- The `timestamp` field read through `timestamp || ...`: a falsy value gives
way to the clock (`some none`), a non-empty string is kept, and any other
truthy value is not a timestamp (`none`). -/
def JsonValue.asStamp? (v : JsonValue) : Option (Option String) :=
  if v.falsy then some none
  else
    match v with
    | JsonValue.string s => some (some s)
    | _ => none

/-- The handler of `POST /track` on any JSON body.  Line 59 answers 400 and
leaves the store alone when `!domain || timeSpent === undefined || !category`.
A body that passes with string `domain` and `category`, a non-negative integer
`timeSpent` and a usable `timestamp` is handled by `track`.  The result is
`none` for the bodies that pass line 59 otherwise (a field of another type, or
a domain that names a member of `Object.prototype`): they are answered with 200
or 500, never 400, and their effects are not modelled. -/
def trackJson (isoNow : String) (body : JsonBody) (st : Store) :
    Option (TrackResponse × Store) :=
  if body.domain.falsy || decide (body.timeSpent = JsonValue.undefined) || body.category.falsy then
    some (TrackResponse.invalidRequest, st)
  else
    match body.domain, body.timeSpent.asNat?, body.category, body.timestamp.asStamp? with
    | JsonValue.string domain, some timeSpent, JsonValue.string category, some timestamp =>
      if domain ∈ objectPrototypeKeys then none
      else
        some (track isoNow
          { domain := some domain, timeSpent := some timeSpent, category := some category,
            timestamp := timestamp } st)
    | _, _, _, _ => none

/-- The specification-side list of the falsy JSON values: a missing field, `null`,
`false`, `0` and the empty string. -/
def IsFalsy (v : JsonValue) : Prop :=
  v = JsonValue.undefined ∨ v = JsonValue.null ∨ v = JsonValue.bool false ∨
    v = JsonValue.number 0 ∨ v = JsonValue.string ""

/-- A sequence of `POST /track` requests handled in order. -/
def trackAll (isoNow : String) (bodies : List TrackBody) (st : Store) : Store :=
  bodies.foldl (fun acc body => (track isoNow body acc).2) st

/-- The sum of `timeSpent` over the Session Records of a domain. -/
def sessionSeconds (sessions : List Session) (domain : String) : Nat :=
  ((sessions.filter (fun r => r.domain = domain)).map (fun r => r.timeSpent)).sum

/-! ## Double-precision arithmetic of the productivity score -/

/-- A non-negative finite double, held as the exact fraction `num / den`. -/
structure Dbl where
  num : Nat
  den : Nat
deriving DecidableEq, Repr

/-- Nearest integer to `n / d`, ties to the even one. -/
def roundHalfEven (n d : Nat) : Nat :=
  let q := n / d
  let r := n % d
  if 2 * r < d then q
  else if d < 2 * r then q + 1
  else if q % 2 = 0 then q else q + 1

/-- Number of halvings that take `n` to 0 (the bit length of `n`), with `fuel`
bounding the recursion. -/
def bitLength : Nat → Nat → Nat
  | 0, _ => 0
  | fuel + 1, n => if n = 0 then 0 else bitLength fuel (n / 2) + 1

/-- Floor of the binary logarithm of a positive `n`. -/
def log2Floor (n : Nat) : Nat := bitLength n n - 1

/-- The double nearest to the positive fraction `n / d` (53-bit significand,
ties to even), for a value in the normal range. -/
def roundToDouble (n d : Nat) : Dbl :=
  if n = 0 ∨ d = 0 then { num := 0, den := 1 }
  else
    let a : Int := log2Floor n
    let b : Int := log2Floor d
    let e : Int := if d * 2 ^ log2Floor n ≤ n * 2 ^ log2Floor d then a - b else a - b - 1
    if e ≤ 52 then
      let m := roundHalfEven (n * 2 ^ (52 - e).toNat) d
      { num := m, den := 2 ^ (52 - e).toNat }
    else
      let m := roundHalfEven n (d * 2 ^ (e - 52).toNat)
      { num := m * 2 ^ (e - 52).toNat, den := 1 }

/-- A non-negative integer below `2 ^ 53` as a double. -/
def Dbl.ofNat (n : Nat) : Dbl := { num := n, den := 1 }

/-- Operator `/` on doubles. -/
def Dbl.div (x y : Dbl) : Dbl := roundToDouble (x.num * y.den) (x.den * y.num)

/-- Operator `*` on doubles. -/
def Dbl.mul (x y : Dbl) : Dbl := roundToDouble (x.num * y.num) (x.den * y.den)

/-- The function `Math.round` on a non-negative double: the nearest integer, a tie
going up. -/
def mathRound (x : Dbl) : Nat := (2 * x.num + x.den) / (2 * x.den)

/-- The nearest integer to `100 * productive / total` in exact arithmetic, a
half going up. -/
def exactPercent (productive total : Nat) : Nat := (200 * productive + total) / (2 * total)

/-! ## Dates -/

/-- The ECMAScript constant `msPerDay`. -/
def msPerDay : Int := 86400000

/-- The time-zone data of the machine: the offset of local time from UTC in
milliseconds, looked up for a UTC instant (`offsetAtUtc`) and for a local time
value (`offsetAtLocal`). -/
structure TimeZone where
  offsetAtUtc : Int → Int
  offsetAtLocal : Int → Int

/-- A zone whose offset from UTC never changes. -/
def TimeZone.fixed (offset : Int) : TimeZone :=
  { offsetAtUtc := fun _ => offset, offsetAtLocal := fun _ => offset }

/-- The ECMAScript operation `LocalTime(t)`. -/
def localTime (zone : TimeZone) (t : Int) : Int := t + zone.offsetAtUtc t

/-- The ECMAScript operation `UTC(t)`. -/
def utcTime (zone : TimeZone) (t : Int) : Int := t - zone.offsetAtLocal t

/-- The time value of `date` after `date.setDate(date.getDate() - i)` when it held
`t`: local time keeps its time within the day and moves back `i` days
(`MakeDay(year, month, DateFromTime(t) - i)` is `Day(t) - i`), and the result is
converted back with `UTC`. -/
def setDateBack (zone : TimeZone) (t : Int) (i : Nat) : Int :=
  utcTime zone (localTime zone t - (i : Int) * msPerDay)

/-- Year, month (1-12) and day of month of the day `days` days after 1970-01-01 in
the proleptic Gregorian calendar. -/
def civilFromDays (days : Int) : Int × Nat × Nat :=
  let z := days + 719468
  let era := Int.fdiv z 146097
  let doe := z - era * 146097
  let yoe := (doe - doe / 1460 + doe / 36524 - doe / 146096) / 365
  let doy := doe - (365 * yoe + yoe / 4 - yoe / 100)
  let mp := (5 * doy + 2) / 153
  let d := doy - (153 * mp + 2) / 5 + 1
  let m := if mp < 10 then mp + 3 else mp - 9
  let y := yoe + era * 400 + (if m ≤ 2 then 1 else 0)
  (y, m.toNat, d.toNat)

/-- Decimal rendering of `n` padded with zeros on the left to `width` digits. -/
def padZero (width n : Nat) : String :=
  String.mk (List.replicate (width - (toString n).length) '0') ++ toString n

/-- The year of an ISO date: four digits from 0 to 9999, a sign and six digits
otherwise. -/
def isoYear (y : Int) : String :=
  if 0 ≤ y ∧ y ≤ 9999 then padZero 4 y.toNat
  else if y < 0 then "-" ++ padZero 6 (-y).toNat
  else "+" ++ padZero 6 y.toNat

/-- The calendar date `YYYY-MM-DD` of the UTC day number `day`. -/
def isoDay (day : Int) : String :=
  let c := civilFromDays day
  isoYear c.1 ++ "-" ++ padZero 2 c.2.1 ++ "-" ++ padZero 2 c.2.2

/-- The expression `date.toISOString().split('T')[0]` for a Date holding `t`: the
UTC calendar date of the instant. -/
def isoDate (t : Int) : String := isoDay (Int.fdiv t msPerDay)

/-- The string `dateStr` of line 131 in iteration `i` of the weekly loop. -/
def dateStr (zone : TimeZone) (now : Int) (i : Nat) : String :=
  isoDate (setDateBack zone now i)

/-! ## Backend: `GET /summary` -/

/-- The accumulator `totals` of the overview. -/
structure Totals where
  productive : Nat
  unproductive : Nat
  neutral : Nat
  total : Nat
deriving DecidableEq, Repr

/-- One row of `websiteStats`. -/
structure WebsiteStat where
  domain : String
  time : Nat
  category : String
  productive : Nat
  unproductive : Nat
deriving DecidableEq, Repr

/-- One day of `weeklyData.days`. -/
structure DayData where
  date : String
  productive : Nat
  unproductive : Nat
deriving DecidableEq, Repr

/-- The overview of the response: the totals and `productivityScore`. -/
structure Overview where
  productive : Nat
  unproductive : Nat
  neutral : Nat
  total : Nat
  productivityScore : Nat
deriving DecidableEq, Repr

/-- The body of a `200` answer of `GET /summary`. -/
structure SummaryResponse where
  overview : Overview
  websites : List WebsiteStat
  weekly : List DayData
deriving DecidableEq, Repr

/-- The totals after the loop `for (let domain in summary)` of lines 106-120. -/
def computeTotals (summary : List (String × Summary)) : Totals :=
  summary.foldl
    (fun totals kv =>
      { productive := totals.productive + kv.2.productive,
        unproductive := totals.unproductive + kv.2.unproductive,
        neutral := totals.neutral + (kv.2.neutral + kv.2.unknown),
        total := totals.total + kv.2.total })
    { productive := 0, unproductive := 0, neutral := 0, total := 0 }

/-- The rows pushed to `websiteStats` by the same loop, in enumeration order. -/
def projectStats (summary : List (String × Summary)) : List WebsiteStat :=
  summary.map (fun kv =>
    { domain := kv.1, time := kv.2.total, category := kv.2.category,
      productive := kv.2.productive, unproductive := kv.2.unproductive })

/-- The comparator `(a, b) => b.time - a.time` read as "a may precede b". -/
def byTimeDesc (a b : WebsiteStat) : Bool := decide (b.time ≤ a.time)

/-- The list `websiteStats` after `websiteStats.sort((a, b) => b.time - a.time)`;
`Array.prototype.sort` is a stable sort. -/
def websites (summary : List (String × Summary)) : List WebsiteStat :=
  (projectStats summary).mergeSort byTimeDesc

/-- The expression of line 149:
`totals.total > 0 ? Math.round((totals.productive / totals.total) * 100) : 0`. -/
def productivityScore (totals : Totals) : Nat :=
  if totals.total > 0 then
    mathRound (Dbl.mul (Dbl.div (Dbl.ofNat totals.productive) (Dbl.ofNat totals.total))
      (Dbl.ofNat 100))
  else 0

/-- The inner `forEach` of lines 136-141 for one session. -/
def addSession (day : DayData) (session : Session) : DayData :=
  if startsWith session.timestamp day.date then
    let day :=
      if session.category = "productive" then
        { day with productive := day.productive + session.timeSpent }
      else day
    if session.category = "unproductive" then
      { day with unproductive := day.unproductive + session.timeSpent }
    else day
  else day

/-- The weekly trend of lines 124-144, computed when `new Date()` holds `now`: `i`
runs from 6 down to 0. -/
def weeklyTrend (zone : TimeZone) (now : Int) (sessions : List Session) : List DayData :=
  [6, 5, 4, 3, 2, 1, 0].map (fun i =>
    sessions.foldl addSession { date := dateStr zone now i, productive := 0, unproductive := 0 })

/-- The handler of `GET /summary`. -/
def summaryRoute (zone : TimeZone) (now : Int) (st : Store) : SummaryResponse :=
  let totals := computeTotals st.summary
  { overview :=
      { productive := totals.productive, unproductive := totals.unproductive,
        neutral := totals.neutral, total := totals.total,
        productivityScore := productivityScore totals },
    websites := websites st.summary,
    weekly := weeklyTrend zone now st.sessions }

/-! ## Specification-side notions and concrete scenarios -/

/-- The specification-side daily sum: the seconds of the Session Records whose
timestamp begins with `date` and whose category is `category`. -/
def daySeconds (sessions : List Session) (date category : String) : Nat :=
  ((sessions.filter (fun r => startsWith r.timestamp date && decide (r.category = category))).map
    (fun r => r.timeSpent)).sum

/-- The total of a domain in the summary map, `summary[domain].total`, and 0 when
the domain has no Domain Summary. -/
def summaryTotal (summary : List (String × Summary)) (domain : String) : Nat :=
  match summary.lookup domain with
  | some e => e.total
  | none => 0

/-- The four category counters by name. -/
def Summary.counter (e : Summary) (name : String) : Nat :=
  if name = "productive" then e.productive
  else if name = "unproductive" then e.unproductive
  else if name = "neutral" then e.neutral
  else e.unknown

/-- The names of the four category counters. -/
def counterNames : List String := ["productive", "unproductive", "neutral", "unknown"]

/-- The specification-side bucket of a category: itself when it is one of the four
counters, `unknown` otherwise. -/
def bucketOf (category : String) : String :=
  if category ∈ counterNames then category else "unknown"

/-- A tab on `http://www./`, whose hostname is `www.`. -/
def wwwTab : Tab := { url := "http://www./" }

/-- The URL parser restricted to the URL of `wwwTab`. -/
def wwwHost (url : String) : Option String :=
  if url = "http://www./" then some "www." else none

/-- A tab on `http://constructor/`, whose hostname is `constructor`. -/
def constructorTab : Tab := { url := "http://constructor/" }

/-- The URL parser restricted to the URL of `constructorTab`. -/
def constructorHost (url : String) : Option String :=
  if url = "http://constructor/" then some "constructor" else none

/-- A request body with the three required fields and no timestamp. -/
def TrackBody.of (domain : String) (timeSpent : Nat) (category : String) : TrackBody :=
  { domain := some domain, timeSpent := some timeSpent, category := some category,
    timestamp := none }

/-- The store after one ingestion `{domain: "a.com", timeSpent: 5, category: "total"}`. -/
def storeAfterTotalCategory : Store :=
  trackAll "2024-01-01T00:00:00.000Z" [TrackBody.of "a.com" 5 "total"] Store.empty

/-- The store after one ingestion `{domain: "a.com", timeSpent: 5, category: "domain"}`. -/
def storeAfterDomainCategory : Store :=
  trackAll "2024-01-01T00:00:00.000Z" [TrackBody.of "a.com" 5 "domain"] Store.empty

/-- The store after 23 productive seconds on `a.com` and 17 neutral seconds on
`b.com`. -/
def storeTwentyThreeOfForty : Store :=
  trackAll "2024-01-01T00:00:00.000Z"
    [TrackBody.of "a.com" 23 "productive", TrackBody.of "b.com" 17 "neutral"] Store.empty

/-- A request whose `domain` field is present and empty. -/
def emptyDomainBody : JsonBody :=
  { domain := JsonValue.string "", timeSpent := JsonValue.number 5,
    category := JsonValue.string "productive", timestamp := JsonValue.undefined }

/-- A request whose `domain` field is present and holds the number 0. -/
def zeroDomainBody : JsonBody :=
  { domain := JsonValue.number 0, timeSpent := JsonValue.number 5,
    category := JsonValue.string "productive", timestamp := JsonValue.undefined }

/-- Fifty-nine heartbeats of one second followed by one of two seconds. -/
def lateTickAmounts : List Int := List.replicate 59 1 ++ [2]

/-- The clock readings of 59 heartbeats one second apart after a start at 1000 ms,
and of a sixtieth heartbeat that fires two seconds after the fifty-ninth. -/
def lateTickReadings : List Int :=
  (List.range 59).map (fun k => 2000 + 1000 * (k : Int)) ++ [62000]

/-- The URL parser restricted to the URL `https://awww.com/`. -/
def awwwHost (url : String) : Option String :=
  if url = "https://awww.com/" then some "awww.com" else none

/-- The rules of Europe/London around the end of summer time on 2024-10-27: one
hour ahead of UTC before 01:00 UTC, that is before 02:00 local time, and on UTC
from then on. -/
def londonAutumn2024 : TimeZone :=
  { offsetAtUtc := fun t => if t < 1729990800000 then 3600000 else 0,
    offsetAtLocal := fun t => if t < 1729994400000 then 3600000 else 0 }

/-- The instant 2024-10-28T00:30:00.000Z. -/
def halfPastMidnight28Oct2024 : Int := 1730075400000

/-- The store after one ingestion of 60 productive seconds for `github.com`
stamped at noon UTC on 2024-10-27. -/
def storeWithSessionOn27Oct : Store :=
  trackAll "2024-10-27T12:00:00.000Z"
    [{ domain := some "github.com", timeSpent := some 60, category := some "productive",
       timestamp := some "2024-10-27T12:00:00.000Z" }]
    Store.empty

/-- The last clock reading of a run that started at `t0`. -/
def lastReading : Int → List Int → Int
  | t0, [] => t0
  | _, now :: rest => lastReading now rest

/-- A tab on `https://www.github.com/`, with the parser answering its hostname. -/
def githubTab : Tab := { url := "https://www.github.com/" }

/-- The URL parser restricted to the one URL of the scenario. -/
def githubHost (url : String) : Option String :=
  if url = "https://www.github.com/" then some "www.github.com" else none

/-- The worker state right after `startTracking(githubTab)` read the clock at
1000 ms on a fresh worker. -/
def trackingGithub : Tracker :=
  startTracking githubHost 1000 1000 (some githubTab) Tracker.init

/-! ## Classifier and hostname normalisation: theorems -/

theorem includesChars_iff (s site : List Char) :
    includesChars s site = true ↔ site <:+: s := by
  induction s with
  | nil => simp [includesChars]
  | cons c cs ih => simp [includesChars, ih, List.infix_cons_iff]

theorem any_includes_iff (sites : List String) (d : String) :
    sites.any (fun site => includes d site) = true ↔ ∃ site ∈ sites, IsSubstring site d := by
  simp [List.any_eq_true, includes, includesChars_iff, IsSubstring]

/-- C3: `classifyWebsite` returns one of the three categories for every string,
`neutral` for the empty string, `productive` exactly when some productive entry
is a substring of the domain, `unproductive` exactly when no productive entry
but some unproductive entry is, `neutral` exactly when neither list matches; a
domain matching both lists is productive. -/
theorem classifyWebsite_spec (d : String) :
    (classifyWebsite (some d) = "productive" ∨ classifyWebsite (some d) = "unproductive"
      ∨ classifyWebsite (some d) = "neutral") ∧
    classifyWebsite (some "") = "neutral" ∧
    (classifyWebsite (some d) = "productive" ↔
      ∃ site ∈ PRODUCTIVE_DOMAINS, IsSubstring site d) ∧
    (classifyWebsite (some d) = "unproductive" ↔
      (¬ ∃ site ∈ PRODUCTIVE_DOMAINS, IsSubstring site d) ∧
        ∃ site ∈ UNPRODUCTIVE_DOMAINS, IsSubstring site d) ∧
    (classifyWebsite (some d) = "neutral" ↔
      (¬ ∃ site ∈ PRODUCTIVE_DOMAINS, IsSubstring site d) ∧
        ¬ ∃ site ∈ UNPRODUCTIVE_DOMAINS, IsSubstring site d) ∧
    ((∃ site ∈ PRODUCTIVE_DOMAINS, IsSubstring site d) →
      (∃ site ∈ UNPRODUCTIVE_DOMAINS, IsSubstring site d) →
      classifyWebsite (some d) = "productive") := by
  rw [← any_includes_iff, ← any_includes_iff]
  by_cases hd : d = ""
  · subst hd
    have hP : PRODUCTIVE_DOMAINS.any (fun site => includes "" site) = false := by decide
    have hU : UNPRODUCTIVE_DOMAINS.any (fun site => includes "" site) = false := by decide
    simp [classifyWebsite, hP, hU]
  · cases hP : PRODUCTIVE_DOMAINS.any (fun site => includes d site) <;>
      cases hU : UNPRODUCTIVE_DOMAINS.any (fun site => includes d site) <;>
      simp [classifyWebsite, hd, hP, hU]

/-- C10 (divergence): the hostnames `awww.com` and `api.www.example.com` do not
start with `www.`, yet the domains recorded for them are `acom` and
`api.example.com`: `replace('www.', '')` removes the first occurrence of `www.`
wherever it stands. -/
theorem getDomain_inner_www :
    startsWith "awww.com" "www." = false ∧
    normalizeHostname "awww.com" = "acom" ∧
    getDomain awwwHost "https://awww.com/" = some "acom" ∧
    startsWith "api.www.example.com" "www." = false ∧
    normalizeHostname "api.www.example.com" = "api.example.com" := by
  decide

/-! ## Ingestion: theorems -/

/-- C1 (divergence): after the single valid ingestion of 5 seconds for `a.com`
with category `total`, the summary total is 10 while the session log holds 5
seconds for the domain. -/
theorem track_total_category_counts_twice :
    (storeAfterTotalCategory.summary.lookup "a.com").map Summary.total = some 10 ∧
    sessionSeconds storeAfterTotalCategory.sessions "a.com" = 5 := by
  decide

/-- C2 (divergence): a category string that names another field of the summary is
not routed to `unknown`: with `total` the `unknown` counter stays 0 and `total`
grows by twice `timeSpent`; with `domain` the `unknown` counter stays 0 and the
stored domain name becomes `a.com5`. -/
theorem track_field_name_category_skips_unknown :
    (storeAfterTotalCategory.summary.lookup "a.com").map Summary.unknown = some 0 ∧
    (storeAfterTotalCategory.summary.lookup "a.com").map Summary.total = some 10 ∧
    (storeAfterDomainCategory.summary.lookup "a.com").map Summary.unknown = some 0 ∧
    (storeAfterDomainCategory.summary.lookup "a.com").map Summary.domain = some "a.com5" := by
  decide

theorem track_valid (isoNow : String) (d c : String) (t : Nat) (ts : Option String)
    (st : Store) (hd : d ≠ "") (hc : c ≠ "") :
    track isoNow { domain := some d, timeSpent := some t, category := some c, timestamp := ts } st =
      (TrackResponse.ok (updatedSite st.summary d c t).total,
        { sessions := st.sessions ++
            [{ domain := d, timeSpent := t, category := c, timestamp := stampOf isoNow ts }],
          summary := writeProp d (updatedSite st.summary d c t) st.summary }) := by
  simp [track, hd, hc]

theorem falsy_iff (v : JsonValue) : v.falsy = true ↔ IsFalsy v := by
  cases v <;> simp [JsonValue.falsy, IsFalsy]

/-- C4 (amended): `POST /track` answers 400 exactly when `domain` is falsy (missing,
`null`, `false`, 0 or the empty string), `category` is falsy, or `timeSpent` is
missing; a rejected request leaves the store unchanged; and a `timeSpent` of 0
with a non-empty string domain and category is accepted. -/
theorem trackJson_invalid_iff (isoNow : String) (body : JsonBody) (st : Store) :
    ((∃ st', trackJson isoNow body st = some (TrackResponse.invalidRequest, st')) ↔
      (IsFalsy body.domain ∨ IsFalsy body.category ∨
        body.timeSpent = JsonValue.undefined)) ∧
    (∀ st', trackJson isoNow body st = some (TrackResponse.invalidRequest, st') → st' = st) ∧
    (∀ (d c : String), d ≠ "" → c ≠ "" → d ∉ objectPrototypeKeys →
      ∃ total st', trackJson isoNow
        { domain := JsonValue.string d, timeSpent := JsonValue.number 0,
          category := JsonValue.string c, timestamp := JsonValue.undefined } st
          = some (TrackResponse.ok total, st')) := by
  have hpass : (body.domain.falsy || decide (body.timeSpent = JsonValue.undefined)
        || body.category.falsy) = false →
      ∀ st', trackJson isoNow body st ≠ some (TrackResponse.invalidRequest, st') := by
    intro hg st' heq
    simp only [Bool.or_eq_false_iff, decide_eq_false_iff_not] at hg
    obtain ⟨⟨hdom, _⟩, hcat⟩ := hg
    unfold trackJson at heq
    simp only [hdom, hcat, Bool.false_or, Bool.or_false, decide_eq_true_eq] at heq
    split at heq
    · contradiction
    · split at heq
      · rename_i d t c ts hd' _ hc' _
        have hd : d ≠ "" := by
          intro h
          rw [hd', h] at hdom
          simp [JsonValue.falsy] at hdom
        have hc : c ≠ "" := by
          intro h
          rw [hc', h] at hcat
          simp [JsonValue.falsy] at hcat
        split_ifs at heq
        rw [track_valid isoNow d c t ts st hd hc] at heq
        simp at heq
      · simp at heq
  refine ⟨⟨?_, ?_⟩, ?_, ?_⟩
  · rintro ⟨st', heq⟩
    by_cases hg : (body.domain.falsy || decide (body.timeSpent = JsonValue.undefined)
        || body.category.falsy) = true
    · simp only [Bool.or_eq_true, decide_eq_true_eq, falsy_iff] at hg
      tauto
    · exact absurd heq (hpass (by simpa using hg) st')
  · intro h
    refine ⟨st, ?_⟩
    have hg : (body.domain.falsy || decide (body.timeSpent = JsonValue.undefined)
        || body.category.falsy) = true := by
      simp only [Bool.or_eq_true, decide_eq_true_eq, falsy_iff]
      tauto
    simp only [trackJson, hg, if_true]
  · intro st' heq
    by_cases hg : (body.domain.falsy || decide (body.timeSpent = JsonValue.undefined)
        || body.category.falsy) = true
    · simp only [trackJson, hg, if_true, Option.some.injEq, Prod.mk.injEq, true_and] at heq
      exact heq.symm
    · exact absurd heq (hpass (by simpa using hg) st')
  · intro d c hd hc hkey
    have h : trackJson isoNow
        { domain := JsonValue.string d, timeSpent := JsonValue.number 0,
          category := JsonValue.string c, timestamp := JsonValue.undefined } st
        = some (track isoNow
          { domain := some d, timeSpent := some 0, category := some c, timestamp := none }
          st) := by
      simp [trackJson, JsonValue.falsy, JsonValue.asNat?, JsonValue.asStamp?, hd, hc, hkey]
    rw [h, track_valid isoNow d c 0 none st hd hc]
    exact ⟨_, _, rfl⟩

/-- C4 (counterexample): a request whose `domain` is present and holds the empty
string, and one whose `domain` holds the number 0, each with `category` and
`timeSpent` present, are rejected, so rejection is not limited to requests with
a missing field. -/
theorem track_present_domain_rejected :
    (trackJson "2024-01-01T00:00:00.000Z" emptyDomainBody Store.empty
        = some (TrackResponse.invalidRequest, Store.empty) ∧
      emptyDomainBody.domain ≠ JsonValue.undefined ∧
      emptyDomainBody.category ≠ JsonValue.undefined ∧
      emptyDomainBody.timeSpent ≠ JsonValue.undefined) ∧
    (trackJson "2024-01-01T00:00:00.000Z" zeroDomainBody Store.empty
        = some (TrackResponse.invalidRequest, Store.empty) ∧
      zeroDomainBody.domain ≠ JsonValue.undefined ∧
      zeroDomainBody.domain ≠ JsonValue.string "" ∧
      zeroDomainBody.category ≠ JsonValue.undefined ∧
      zeroDomainBody.timeSpent ≠ JsonValue.undefined) := by
  decide

/-- C7 (divergence): with 23 productive seconds out of 40 the handler answers a
productivity score of 57, while 100 * 23 / 40 = 57.5 rounds to 58. -/
theorem productivityScore_twenty_three_of_forty :
    (summaryRoute (TimeZone.fixed 0) 1704067200000 storeTwentyThreeOfForty).overview.productive = 23 ∧
    (summaryRoute (TimeZone.fixed 0) 1704067200000 storeTwentyThreeOfForty).overview.total = 40 ∧
    (summaryRoute (TimeZone.fixed 0) 1704067200000 storeTwentyThreeOfForty).overview.productivityScore
      = 57 ∧
    exactPercent 23 40 = 58 := by
  decide

set_option maxRecDepth 100000 in
/-- C6 (divergence): after 59 attributions of one second and one of two seconds the
local total is 61 and no sync has been emitted, so 61 seconds are unsynced; the
same happens in a run of `saveTimeSpent` on a `github.com` tab whose sixtieth
heartbeat fires one second late. -/
theorem late_tick_skips_sync_boundary :
    tableTotal (attributeAll "github.com" "productive" lateTickAmounts ([], [])).1 "github.com"
      = 61 ∧
    (attributeAll "github.com" "productive" lateTickAmounts ([], [])).2 = [] ∧
    pushedSeconds (attributeAll "github.com" "productive" lateTickAmounts ([], [])).2
      "github.com" = 0 ∧
    tableTotal (runTicks githubHost lateTickReadings trackingGithub).timeData "github.com" = 61 ∧
    (runTicks githubHost lateTickReadings trackingGithub).sent = [] := by
  decide

/-! ## Aggregation: theorems -/

theorem byTimeDesc_trans (a b c : WebsiteStat) :
    byTimeDesc a b = true → byTimeDesc b c = true → byTimeDesc a c = true := by
  simp only [byTimeDesc, decide_eq_true_eq]
  omega

theorem byTimeDesc_total (a b : WebsiteStat) : (byTimeDesc a b || byTimeDesc b a) = true := by
  simp only [byTimeDesc, Bool.or_eq_true, decide_eq_true_eq]
  omega

theorem filter_time_pairwise (t : Nat) (l : List WebsiteStat) :
    (l.filter (fun w => decide (w.time = t))).Pairwise (fun a b => byTimeDesc a b = true) := by
  rw [List.pairwise_iff_forall_sublist]
  intro a b hab
  have ha : a ∈ l.filter (fun w => decide (w.time = t)) := hab.subset (by simp)
  have hb : b ∈ l.filter (fun w => decide (w.time = t)) := hab.subset (by simp)
  simp only [List.mem_filter, decide_eq_true_eq] at ha hb
  simp only [byTimeDesc, decide_eq_true_eq]
  omega

/-- C8: the `websites` list answered by `GET /summary` is a rearrangement of the
projection of the summary map (one row per Domain Summary, `time` its total,
`category`, `productive` and `unproductive` copied), it is ordered by
non-increasing `time`, and for every value of `time` the rows with that time
stand in the order in which the summary map enumerates them. -/
theorem websites_sorted_stable (zone : TimeZone) (now : Int) (st : Store) :
    ((summaryRoute zone now st).websites).Perm
      (st.summary.map (fun kv =>
        ({ domain := kv.1, time := kv.2.total, category := kv.2.category,
           productive := kv.2.productive, unproductive := kv.2.unproductive } : WebsiteStat))) ∧
    ((summaryRoute zone now st).websites).Pairwise (fun a b => b.time ≤ a.time) ∧
    ∀ t : Nat, ((summaryRoute zone now st).websites).filter (fun w => decide (w.time = t)) =
      (st.summary.map (fun kv =>
        ({ domain := kv.1, time := kv.2.total, category := kv.2.category,
           productive := kv.2.productive, unproductive := kv.2.unproductive } : WebsiteStat))).filter
        (fun w => decide (w.time = t)) := by
  have hw : (summaryRoute zone now st).websites = websites st.summary := rfl
  have hp : st.summary.map (fun kv =>
      ({ domain := kv.1, time := kv.2.total, category := kv.2.category,
         productive := kv.2.productive, unproductive := kv.2.unproductive } : WebsiteStat))
      = projectStats st.summary := rfl
  rw [hw, hp]
  refine ⟨List.mergeSort_perm _ _, ?_, ?_⟩
  · have h := List.sorted_mergeSort byTimeDesc_trans byTimeDesc_total (projectStats st.summary)
    exact h.imp (fun hab => by simpa [byTimeDesc] using hab)
  · intro t
    have hsub : List.Sublist ((projectStats st.summary).filter (fun w => decide (w.time = t)))
        (websites st.summary) :=
      List.sublist_mergeSort byTimeDesc_trans byTimeDesc_total
        (filter_time_pairwise t _) (List.filter_sublist _)
    have hsub2 := hsub.filter (fun w => decide (w.time = t))
    rw [List.filter_filter] at hsub2
    simp only [Bool.and_self] at hsub2
    have hlen : ((websites st.summary).filter (fun w => decide (w.time = t))).length =
        ((projectStats st.summary).filter (fun w => decide (w.time = t))).length :=
      ((List.mergeSort_perm (projectStats st.summary) byTimeDesc).filter _).length_eq
    exact (hsub2.eq_of_length hlen.symm).symm

theorem foldl_addSession (sessions : List Session) (day : DayData) :
    (sessions.foldl addSession day).date = day.date ∧
    (sessions.foldl addSession day).productive =
      day.productive + daySeconds sessions day.date "productive" ∧
    (sessions.foldl addSession day).unproductive =
      day.unproductive + daySeconds sessions day.date "unproductive" := by
  induction sessions generalizing day with
  | nil => simp [daySeconds]
  | cons r rest ih =>
    have hdate : (addSession day r).date = day.date := by
      unfold addSession; split_ifs <;> rfl
    obtain ⟨h1, h2, h3⟩ := ih (addSession day r)
    rw [List.foldl_cons, h1, h2, h3, hdate]
    refine ⟨rfl, ?_, ?_⟩
    · unfold addSession daySeconds
      by_cases hp : startsWith r.timestamp day.date = true <;>
        by_cases hc : r.category = "productive" <;>
        by_cases hu : r.category = "unproductive" <;>
        simp [List.filter_cons, hp, hc, hu] <;> omega
    · unfold addSession daySeconds
      by_cases hp : startsWith r.timestamp day.date = true <;>
        by_cases hc : r.category = "productive" <;>
        by_cases hu : r.category = "unproductive" <;>
        simp [List.filter_cons, hp, hc, hu]
      omega

/-- C9 (divergence): on a machine in the Europe/London zone, at
2024-10-28T00:30:00Z, the seven dates of the weekly view are 2024-10-21 to
2024-10-26 and 2024-10-28: the day 2024-10-27 is missing, because `setDate`
steps back in local time across the end of summer time and `toISOString`
renders the result in UTC; a Session Record of 2024-10-27 is counted in no
entry. -/
theorem weeklyTrend_skips_day_after_clock_change :
    (summaryRoute londonAutumn2024 halfPastMidnight28Oct2024 storeWithSessionOn27Oct).weekly.map
      DayData.date =
      ["2024-10-21", "2024-10-22", "2024-10-23", "2024-10-24", "2024-10-25", "2024-10-26",
        "2024-10-28"] ∧
    (summaryRoute londonAutumn2024 halfPastMidnight28Oct2024 storeWithSessionOn27Oct).weekly.map
      DayData.productive = [0, 0, 0, 0, 0, 0, 0] ∧
    storeWithSessionOn27Oct.sessions.map Session.timestamp = ["2024-10-27T12:00:00.000Z"] ∧
    isoDate halfPastMidnight28Oct2024 = "2024-10-28" := by
  decide

/-- The weekly view has exactly 7 entries, dated by `dateStr` for 6, 5, ..., 0
days back in this order, and each entry's `productive` and `unproductive` values
are the sums of `timeSpent` over the Session Records whose timestamp begins with
the entry's date and whose category is `productive`, respectively
`unproductive`. -/
theorem weeklyTrend_spec (zone : TimeZone) (now : Int) (sessions : List Session) :
    (weeklyTrend zone now sessions).length = 7 ∧
    (weeklyTrend zone now sessions).map DayData.date =
      [dateStr zone now 6, dateStr zone now 5, dateStr zone now 4, dateStr zone now 3,
        dateStr zone now 2, dateStr zone now 1, dateStr zone now 0] ∧
    ∀ day ∈ weeklyTrend zone now sessions,
      day.productive = daySeconds sessions day.date "productive" ∧
      day.unproductive = daySeconds sessions day.date "unproductive" := by
  refine ⟨by simp [weeklyTrend], ?_, ?_⟩
  · simp [weeklyTrend, (foldl_addSession sessions _).1]
  · intro day hday
    simp only [weeklyTrend, List.mem_map] at hday
    obtain ⟨i, -, rfl⟩ := hday
    obtain ⟨h1, h2, h3⟩ :=
      foldl_addSession sessions { date := dateStr zone now i, productive := 0, unproductive := 0 }
    rw [h1, h2, h3]
    simp

/-- In a zone whose offset from UTC never changes, the date of iteration `i`
of the weekly loop is the UTC calendar date `i` days before the UTC date of the
current instant, so the seven dates are consecutive and end today (UTC). -/
theorem dateStr_fixed_zone (offset now : Int) (i : Nat) :
    dateStr (TimeZone.fixed offset) now i = isoDay (Int.fdiv now msPerDay - i) := by
  have h1 : ∀ a : Int, Int.fdiv a msPerDay = a / 86400000 := fun a =>
    Int.fdiv_eq_ediv _ (by decide)
  simp only [dateStr, isoDate, setDateBack, utcTime, localTime, TimeZone.fixed, h1]
  congr 1
  simp only [msPerDay]
  omega

/-! ## Dictionary lemmas -/

theorem lookup_replaceProp {β : Type} (k : String) (v : β) (obj : List (String × β))
    (h : (obj.lookup k).isSome = true) : (replaceProp k v obj).lookup k = some v := by
  induction obj with
  | nil => simp at h
  | cons kv rest ih =>
    obtain ⟨k', v'⟩ := kv
    by_cases hk : k' = k
    · simp [replaceProp, hk, List.lookup_cons]
    · have hk2 : (k == k') = false := by simpa using fun h' => hk h'.symm
      simp only [List.lookup_cons, hk2] at h
      simp [replaceProp, hk, List.lookup_cons, hk2, ih h]

theorem lookup_insertProp {β : Type} (k : String) (v : β) (obj : List (String × β))
    (h : obj.lookup k = none) : (insertProp k v obj).lookup k = some v := by
  induction obj with
  | nil => simp [insertProp, List.lookup_cons]
  | cons kv rest ih =>
    obtain ⟨k', v'⟩ := kv
    have hk2 : (k == k') = false := by
      cases hb : (k == k')
      · rfl
      · simp [List.lookup_cons, hb] at h
    have hrest : rest.lookup k = none := by simpa [List.lookup_cons, hk2] using h
    unfold insertProp
    split
    · split_ifs
      · simp [List.lookup_cons]
      · simp [List.lookup_cons, hk2, ih hrest]
    · simp [List.lookup_cons]
    · simp [List.lookup_cons, hk2, ih hrest]

theorem lookup_writeProp {β : Type} (k : String) (v : β) (obj : List (String × β)) :
    (writeProp k v obj).lookup k = some v := by
  unfold writeProp
  split
  · rename_i e he
    exact lookup_replaceProp k v obj (by simp [he])
  · rename_i he
    exact lookup_insertProp k v obj he

/-! ## Heartbeat: theorems -/

theorem tableTotal_accumulateOwn (d category : String) (t : Int)
    (timeData : List (String × SiteTime)) (sent : List SyncCall) :
    tableTotal (accumulateOwn d category t timeData sent).1 d = tableTotal timeData d + t := by
  have hadd : ∀ e : SiteTime, (e.addTo category t).total = e.total := by
    intro e
    unfold SiteTime.addTo
    split_ifs <;> rfl
  unfold accumulateOwn
  simp only []
  split_ifs <;>
    (simp only [tableTotal, lookup_writeProp, hadd]
     cases timeData.lookup d <;> simp)

theorem accumulate_of_ordinary (d category : String) (t : Int)
    (timeData : List (String × SiteTime)) (sent : List SyncCall)
    (hkey : d ∉ objectPrototypeKeys) :
    accumulate d category t timeData sent = accumulateOwn d category t timeData sent := by
  simp [accumulate, hkey]

theorem tableTotal_accumulate (d category : String) (t : Int)
    (timeData : List (String × SiteTime)) (sent : List SyncCall)
    (hkey : d ∉ objectPrototypeKeys) :
    tableTotal (accumulate d category t timeData sent).1 d = tableTotal timeData d + t := by
  rw [accumulate_of_ordinary _ _ _ _ _ hkey]
  exact tableTotal_accumulateOwn d category t timeData sent

/-- One call of `saveTimeSpent` in a Tracking state whose start marker is `st`. -/
theorem saveTimeSpent_step (hostnameOf : String → Option String) (tab : Tab) (d : String)
    (s : Tracker) (st now : Int)
    (htab : s.currentTab = some tab) (hact : s.trackingActive = true)
    (hst : s.startTime = some st) (hpos : 0 < st) (hle : st ≤ now)
    (hd : getDomain hostnameOf tab.url = some d) (hne : d ≠ "")
    (hkey : d ∉ objectPrototypeKeys) :
    (saveTimeSpent hostnameOf now s).currentTab = some tab ∧
    (saveTimeSpent hostnameOf now s).trackingActive = true ∧
    tableTotal (saveTimeSpent hostnameOf now s).timeData d =
      tableTotal s.timeData d + Int.fdiv (now - st) 1000 ∧
    0 ≤ Int.fdiv (now - st) 1000 ∧
    ∃ st', (saveTimeSpent hostnameOf now s).startTime = some st' ∧ st ≤ st' ∧ st' ≤ now ∧
      1000 * Int.fdiv (now - st) 1000 ≤ st' - st := by
  have hfd : Int.fdiv (now - st) 1000 = (now - st) / 1000 :=
    Int.fdiv_eq_ediv _ (by norm_num)
  have hne0 : st ≠ 0 := by omega
  rw [hfd]
  by_cases hz : (now - st) / 1000 > 0
  · have hs : saveTimeSpent hostnameOf now s =
        { s with
          timeData := (accumulate d (classifyWebsite (some d)) ((now - st) / 1000)
            s.timeData s.sent).1,
          startTime := some now,
          sent := (accumulate d (classifyWebsite (some d)) ((now - st) / 1000)
            s.timeData s.sent).2 } := by
      simp [saveTimeSpent, htab, hst, hact, hne0, hfd, hz, hd, hne]
    rw [hs]
    refine ⟨htab, hact, tableTotal_accumulate _ _ _ _ _ hkey, by omega, now, rfl, hle,
      le_refl _, ?_⟩
    omega
  · have hs : saveTimeSpent hostnameOf now s = s := by
      simp [saveTimeSpent, htab, hst, hact, hne0, hfd, hz]
    rw [hs]
    refine ⟨htab, hact, by omega, by omega, st, hst, le_refl _, hle, ?_⟩
    omega

theorem chain_split_last (now : Int) (post : List Int) :
    ∀ (pre : List Int) (a : Int), List.Chain (fun x y => x ≤ y) a (pre ++ now :: post) →
      List.Chain (fun x y => x ≤ y) a pre ∧ lastReading a pre ≤ now := by
  intro pre
  induction pre with
  | nil =>
    intro a h
    simp only [List.nil_append, List.chain_cons] at h
    exact ⟨List.Chain.nil, h.1⟩
  | cons p pre ih =>
    intro a h
    simp only [List.cons_append, List.chain_cons] at h
    obtain ⟨h1, h2⟩ := ih p h.2
    exact ⟨List.Chain.cons h.1 h1, h2⟩

/-- The invariant of a run of `saveTimeSpent` calls at non-decreasing readings. -/
theorem runTicks_invariant (hostnameOf : String → Option String) (tab : Tab) (d : String)
    (hd : getDomain hostnameOf tab.url = some d) (hne : d ≠ "")
    (hkey : d ∉ objectPrototypeKeys) :
    ∀ (ticks : List Int) (s : Tracker) (st lo : Int),
      s.currentTab = some tab → s.trackingActive = true → s.startTime = some st →
      0 < st → st ≤ lo → List.Chain (fun x y => x ≤ y) lo ticks →
      (runTicks hostnameOf ticks s).currentTab = some tab ∧
      (runTicks hostnameOf ticks s).trackingActive = true ∧
      ∃ st', (runTicks hostnameOf ticks s).startTime = some st' ∧ st ≤ st' ∧
        st' ≤ lastReading lo ticks ∧
        1000 * (tableTotal (runTicks hostnameOf ticks s).timeData d - tableTotal s.timeData d)
          ≤ st' - st ∧
        tableTotal s.timeData d ≤ tableTotal (runTicks hostnameOf ticks s).timeData d := by
  intro ticks
  induction ticks with
  | nil =>
    intro s st lo htab hact hst _ hle _
    exact ⟨htab, hact, st, hst, le_refl _, hle, by simp [runTicks], by simp [runTicks]⟩
  | cons now rest ih =>
    intro s st lo htab hact hst hpos hle hch
    simp only [List.chain_cons] at hch
    obtain ⟨h1, h2, h3, h4, st1, h5, h6, h7, h8⟩ :=
      saveTimeSpent_step hostnameOf tab d s st now htab hact hst hpos (le_trans hle hch.1) hd hne
        hkey
    obtain ⟨g1, g2, st', g3, g4, g5, g6, g7⟩ :=
      ih (saveTimeSpent hostnameOf now s) st1 now h1 h2 h5 (by omega) h7 hch.2
    have hrun : runTicks hostnameOf (now :: rest) s =
        runTicks hostnameOf rest (saveTimeSpent hostnameOf now s) := rfl
    rw [hrun]
    rw [h3] at g6 g7
    refine ⟨g1, g2, st', g3, by omega, g5, ?_, ?_⟩
    · omega
    · omega

/-- C5 (amended): in a Tracking period on one tab whose normalised domain `d` is
non-empty and names no member of `Object.prototype`, started at a clock reading
`t0 > 0`, with `saveTimeSpent` called at readings `t0 ≤ t1 ≤ ... ≤ tn`, all
numbers being in the range where doubles are exact integers (readings below
`2 ^ 53`, the local total of `d` above `-2 ^ 53` and, with the elapsed seconds
added, below `2 ^ 53`): each call adds `floor((now - startTime) / 1000)` seconds
to the local total of `d`, that amount is never negative, the seconds added
over the whole run, times 1000, are at most `tn - t0`, and the local total stays
in the exact range. -/
theorem saveTimeSpent_run_bounded (hostnameOf : String → Option String) (tab : Tab) (d : String)
    (s0 : Tracker) (t0 : Int) (ticks : List Int)
    (htab : s0.currentTab = some tab) (hact : s0.trackingActive = true)
    (hst : s0.startTime = some t0) (hpos : 0 < t0)
    (hd : getDomain hostnameOf tab.url = some d) (hne : d ≠ "")
    (hkey : d ∉ objectPrototypeKeys)
    (hmono : List.Chain (fun x y => x ≤ y) t0 ticks)
    (hclock : lastReading t0 ticks < 2 ^ 53)
    (hlow : -(2 ^ 53) < tableTotal s0.timeData d)
    (hhigh : tableTotal s0.timeData d + (lastReading t0 ticks - t0) / 1000 < 2 ^ 53) :
    (∀ (pre : List Int) (now : Int) (post : List Int), ticks = pre ++ now :: post →
      ∃ st, (runTicks hostnameOf pre s0).startTime = some st ∧
        tableTotal (saveTimeSpent hostnameOf now (runTicks hostnameOf pre s0)).timeData d
          - tableTotal (runTicks hostnameOf pre s0).timeData d = Int.fdiv (now - st) 1000 ∧
        0 ≤ Int.fdiv (now - st) 1000) ∧
    1000 * (tableTotal (runTicks hostnameOf ticks s0).timeData d - tableTotal s0.timeData d)
      ≤ lastReading t0 ticks - t0 ∧
    (-(2 ^ 53) < tableTotal (runTicks hostnameOf ticks s0).timeData d ∧
      tableTotal (runTicks hostnameOf ticks s0).timeData d < 2 ^ 53) := by
  refine ⟨?_, ?_⟩
  · intro pre now post hsplit
    subst hsplit
    obtain ⟨hpre, hlast⟩ := chain_split_last now post pre t0 hmono
    obtain ⟨g1, g2, st, g3, g4, g5, _⟩ :=
      runTicks_invariant hostnameOf tab d hd hne hkey pre s0 t0 t0 htab hact hst hpos (le_refl _)
        hpre
    obtain ⟨_, _, h3, h4, _⟩ :=
      saveTimeSpent_step hostnameOf tab d _ st now g1 g2 g3 (by omega) (by omega) hd hne hkey
    exact ⟨st, g3, by rw [h3]; omega, h4⟩
  · obtain ⟨_, _, st, _, _, g5, g6, g7⟩ :=
      runTicks_invariant hostnameOf tab d hd hne hkey ticks s0 t0 t0 htab hact hst hpos (le_refl _)
        hmono
    have hclock2 := hclock
    refine ⟨by omega, by omega, by omega⟩

/-- C5 (witness): a tab on `https://www.github.com/` tracked from 1000 ms with calls
at 1500, 3200 and 4000 ms. -/
theorem saveTimeSpent_run_bounded_witness :
    (∀ (pre : List Int) (now : Int) (post : List Int), [1500, 3200, 4000] = pre ++ now :: post →
      ∃ st, (runTicks githubHost pre trackingGithub).startTime = some st ∧
        tableTotal (saveTimeSpent githubHost now (runTicks githubHost pre trackingGithub)).timeData
            "github.com"
          - tableTotal (runTicks githubHost pre trackingGithub).timeData "github.com"
            = Int.fdiv (now - st) 1000 ∧
        0 ≤ Int.fdiv (now - st) 1000) ∧
    1000 * (tableTotal (runTicks githubHost [1500, 3200, 4000] trackingGithub).timeData "github.com"
        - tableTotal trackingGithub.timeData "github.com")
      ≤ lastReading 1000 [1500, 3200, 4000] - 1000 ∧
    (-(2 ^ 53) < tableTotal (runTicks githubHost [1500, 3200, 4000] trackingGithub).timeData
        "github.com" ∧
      tableTotal (runTicks githubHost [1500, 3200, 4000] trackingGithub).timeData "github.com"
        < 2 ^ 53) :=
  saveTimeSpent_run_bounded githubHost githubTab "github.com" trackingGithub 1000
    [1500, 3200, 4000] (by decide) (by decide) (by decide) (by decide) (by decide) (by decide)
    (by decide) (by simp) (by decide) (by decide) (by decide)

/-- C5 (counterexample): three Tracking periods in which a call of `saveTimeSpent`
attributes nothing although `floor((now - startTime) / 1000)` is positive: a tab
on `http://www./`, whose normalised domain is the empty string; a tab on
`http://constructor/`, whose domain names the inherited member
`Object.prototype.constructor`; and a period whose start marker is the clock
reading 0. -/
theorem saveTimeSpent_attributes_nothing :
    ((startTracking wwwHost 1000 1000 (some wwwTab) Tracker.init).currentTab = some wwwTab ∧
      (startTracking wwwHost 1000 1000 (some wwwTab) Tracker.init).trackingActive = true ∧
      (startTracking wwwHost 1000 1000 (some wwwTab) Tracker.init).startTime = some 1000 ∧
      Int.fdiv (3000 - 1000) 1000 = 2 ∧
      (saveTimeSpent wwwHost 3000
        (startTracking wwwHost 1000 1000 (some wwwTab) Tracker.init)).timeData = []) ∧
    ((startTracking constructorHost 1000 1000 (some constructorTab) Tracker.init).currentTab
        = some constructorTab ∧
      (startTracking constructorHost 1000 1000 (some constructorTab) Tracker.init).trackingActive
        = true ∧
      (startTracking constructorHost 1000 1000 (some constructorTab) Tracker.init).startTime
        = some 1000 ∧
      getDomain constructorHost constructorTab.url = some "constructor" ∧
      Int.fdiv (3000 - 1000) 1000 = 2 ∧
      (saveTimeSpent constructorHost 3000
        (startTracking constructorHost 1000 1000 (some constructorTab) Tracker.init)).timeData
        = []) ∧
    ((startTracking githubHost 0 0 (some githubTab) Tracker.init).currentTab = some githubTab ∧
      (startTracking githubHost 0 0 (some githubTab) Tracker.init).trackingActive = true ∧
      (startTracking githubHost 0 0 (some githubTab) Tracker.init).startTime = some 0 ∧
      Int.fdiv (5000 - 0) 1000 = 5 ∧
      (saveTimeSpent githubHost 5000
        (startTracking githubHost 0 0 (some githubTab) Tracker.init)).timeData = []) := by
  decide

theorem lookup_replaceProp_ne {β : Type} (k x : String) (v : β) (obj : List (String × β))
    (hx : x ≠ k) : (replaceProp k v obj).lookup x = obj.lookup x := by
  induction obj with
  | nil => simp [replaceProp]
  | cons kv rest ih =>
    obtain ⟨k', v'⟩ := kv
    by_cases hk : k' = k
    · subst hk
      have : (x == k') = false := by simpa using hx
      simp [replaceProp, List.lookup_cons, this]
    · simp [replaceProp, hk, List.lookup_cons, ih]

theorem lookup_insertProp_ne {β : Type} (k x : String) (v : β) (obj : List (String × β))
    (hx : x ≠ k) : (insertProp k v obj).lookup x = obj.lookup x := by
  have hxk : (x == k) = false := by simpa using hx
  induction obj with
  | nil => simp [insertProp, List.lookup_cons, hxk]
  | cons kv rest ih =>
    obtain ⟨k', v'⟩ := kv
    unfold insertProp
    split
    · split_ifs
      · simp [List.lookup_cons, hxk]
      · simp [List.lookup_cons, ih]
    · simp [List.lookup_cons, hxk]
    · simp [List.lookup_cons, ih]

theorem lookup_writeProp_ne {β : Type} (k x : String) (v : β) (obj : List (String × β))
    (hx : x ≠ k) : (writeProp k v obj).lookup x = obj.lookup x := by
  unfold writeProp
  split
  · exact lookup_replaceProp_ne k x v obj hx
  · exact lookup_insertProp_ne k x v obj hx

theorem addTo_total_of_ne (site : Summary) (catKey : String) (t : Nat)
    (h : catKey ≠ "total") : (site.addTo catKey t).total = site.total := by
  unfold Summary.addTo
  split_ifs <;> rfl

theorem updatedSite_total (summary : List (String × Summary)) (d c : String) (t : Nat)
    (hc : c ≠ "total") :
    (updatedSite summary d c t).total = summaryTotal summary d + t := by
  have hkey : ∀ site : Summary,
      (site.addTo (if site.hasOwnProperty c = true then c else "unknown") t).total
        = site.total := by
    intro site
    apply addTo_total_of_ne
    split_ifs
    · exact hc
    · decide
  simp only [updatedSite, hkey, summaryOrFresh, summaryTotal]
  cases summary.lookup d <;> simp

theorem sessionSeconds_append (sessions : List Session) (r : Session) (x : String) :
    sessionSeconds (sessions ++ [r]) x =
      sessionSeconds sessions x + (if r.domain = x then r.timeSpent else 0) := by
  unfold sessionSeconds
  by_cases h : r.domain = x <;> simp [List.filter_append, List.filter_cons, h]

/-- When no ingested category is the string `total` and no ingested domain names a
member of `Object.prototype`, every sequence of valid well-typed ingestions from
the empty store keeps `summary[d].total` equal to the sum of `timeSpent` over
the Session Records of `d`, for every domain `d` (sums below `2 ^ 53`). -/
theorem total_eq_sessionSeconds (isoNow : String) (bodies : List TrackBody)
    (hvalid : ∀ b ∈ bodies, ∃ d t c, b.domain = some d ∧ d ≠ "" ∧ b.timeSpent = some t ∧
      b.category = some c ∧ c ≠ "" ∧ c ≠ "total" ∧ d ∉ objectPrototypeKeys)
    (x : String) :
    summaryTotal (trackAll isoNow bodies Store.empty).summary x =
      sessionSeconds (trackAll isoNow bodies Store.empty).sessions x := by
  have key : ∀ (bodies : List TrackBody) (st : Store),
      (∀ b ∈ bodies, ∃ d t c, b.domain = some d ∧ d ≠ "" ∧ b.timeSpent = some t ∧
        b.category = some c ∧ c ≠ "" ∧ c ≠ "total" ∧ d ∉ objectPrototypeKeys) →
      (∀ y, summaryTotal st.summary y = sessionSeconds st.sessions y) →
      ∀ y, summaryTotal (trackAll isoNow bodies st).summary y =
        sessionSeconds (trackAll isoNow bodies st).sessions y := by
    intro bodies
    induction bodies with
    | nil => intro st _ hinv; simpa [trackAll] using hinv
    | cons b rest ih =>
      intro st hv hinv
      obtain ⟨d, t, c, h1, hd, h2, h3, hc, htot, _⟩ := hv b (List.mem_cons_self _ _)
      have hb : b = ⟨some d, some t, some c, b.timestamp⟩ := by
        cases b; simp_all
      have hstep : trackAll isoNow (b :: rest) st = trackAll isoNow rest (track isoNow b st).2 :=
        rfl
      rw [hstep]
      apply ih _ (fun b' hb' => hv b' (List.mem_cons_of_mem _ hb'))
      intro y
      rw [hb, track_valid isoNow d c t _ st hd hc]
      simp only [sessionSeconds_append]
      by_cases hy : d = y
      · subst hy
        simp [summaryTotal, lookup_writeProp, updatedSite_total _ _ _ _ htot, ← hinv]
      · have hy2 : y ≠ d := fun h => hy h.symm
        simp [summaryTotal, lookup_writeProp_ne _ _ _ _ hy2, hy, ← hinv]
  exact key bodies Store.empty hvalid (by intro y; simp [Store.empty, summaryTotal, sessionSeconds]) x

/-- Witness of `total_eq_sessionSeconds`: the scenario of the specification,
10 seconds of category `weird` and 5 productive seconds on `a.com`. -/
theorem total_eq_sessionSeconds_witness :
    summaryTotal (trackAll "2024-01-01T00:00:00.000Z"
        [TrackBody.of "a.com" 10 "weird", TrackBody.of "a.com" 5 "productive"]
        Store.empty).summary "a.com" =
      sessionSeconds (trackAll "2024-01-01T00:00:00.000Z"
        [TrackBody.of "a.com" 10 "weird", TrackBody.of "a.com" 5 "productive"]
        Store.empty).sessions "a.com" :=
  total_eq_sessionSeconds "2024-01-01T00:00:00.000Z"
    [TrackBody.of "a.com" 10 "weird", TrackBody.of "a.com" 5 "productive"]
    (by
      intro b hb
      simp only [List.mem_cons, List.mem_singleton, List.not_mem_nil, or_false] at hb
      rcases hb with rfl | rfl
      · exact ⟨"a.com", 10, "weird", rfl, by decide, rfl, rfl, by decide, by decide, by decide⟩
      · exact ⟨"a.com", 5, "productive", rfl, by decide, rfl, rfl, by decide, by decide,
          by decide⟩)
    "a.com"

/-- A valid well-typed ingestion whose category is not one of the field names
`total`, `domain`, `category`, for a domain that names no member of
`Object.prototype`, adds `timeSpent` to `total` and to exactly one of the four
counters, the one named by the category when it is one of them and `unknown`
otherwise; the other three counters keep their values (sums below `2 ^ 53`). -/
theorem track_counters (isoNow d c : String) (t : Nat) (ts : Option String) (st : Store)
    (hd : d ≠ "") (hc : c ≠ "") (h1 : c ≠ "total") (h2 : c ≠ "domain") (h3 : c ≠ "category")
    (hkey : d ∉ objectPrototypeKeys) :
    ∃ e, (track isoNow
        { domain := some d, timeSpent := some t, category := some c, timestamp := ts }
        st).2.summary.lookup d = some e ∧
      e.total = (summaryOrFresh st.summary d c).total + t ∧
      ∀ name ∈ counterNames,
        e.counter name =
          (summaryOrFresh st.summary d c).counter name + (if name = bucketOf c then t else 0) := by
  rw [track_valid isoNow d c t ts st hd hc]
  refine ⟨_, lookup_writeProp _ _ _, ?_, ?_⟩
  · have := updatedSite_total st.summary d c t h1
    rw [this]
    simp only [summaryTotal, summaryOrFresh]
    cases st.summary.lookup d <;> rfl
  · intro name hname
    unfold updatedSite
    generalize summaryOrFresh st.summary d c = site
    simp only [counterNames, List.mem_cons, List.mem_singleton, List.not_mem_nil, or_false]
      at hname
    by_cases hp : c = "productive"
    · subst hp
      rcases hname with rfl | rfl | rfl | rfl <;>
        simp [Summary.hasOwnProperty, summaryKeys, Summary.addTo, Summary.counter,
          bucketOf, counterNames]
    by_cases hu : c = "unproductive"
    · subst hu
      rcases hname with rfl | rfl | rfl | rfl <;>
        simp [Summary.hasOwnProperty, summaryKeys, Summary.addTo, Summary.counter,
          bucketOf, counterNames]
    by_cases hn : c = "neutral"
    · subst hn
      rcases hname with rfl | rfl | rfl | rfl <;>
        simp [Summary.hasOwnProperty, summaryKeys, Summary.addTo, Summary.counter,
          bucketOf, counterNames]
    by_cases hk : c = "unknown"
    · subst hk
      rcases hname with rfl | rfl | rfl | rfl <;>
        simp [Summary.hasOwnProperty, summaryKeys, Summary.addTo, Summary.counter,
          bucketOf, counterNames]
    · have hown : site.hasOwnProperty c = false := by
        simp [Summary.hasOwnProperty, summaryKeys, hp, hu, hn, hk, h1, h2, h3]
      have hb : bucketOf c = "unknown" := by
        simp [bucketOf, counterNames, hp, hu, hn, hk]
      rcases hname with rfl | rfl | rfl | rfl <;>
        simp [hown, hb, Summary.addTo, Summary.counter]

/-- Witness of `track_counters`: the scenario of the specification, category
`weird` on `a.com`. -/
theorem track_counters_witness :
    ∃ e, (track "2024-01-01T00:00:00.000Z"
        { domain := some "a.com", timeSpent := some 10, category := some "weird",
          timestamp := none }
        Store.empty).2.summary.lookup "a.com" = some e ∧
      e.total = (summaryOrFresh Store.empty.summary "a.com" "weird").total + 10 ∧
      ∀ name ∈ counterNames,
        e.counter name =
          (summaryOrFresh Store.empty.summary "a.com" "weird").counter name
            + (if name = bucketOf "weird" then 10 else 0) :=
  track_counters "2024-01-01T00:00:00.000Z" "a.com" "weird" 10 none Store.empty
    (by decide) (by decide) (by decide) (by decide) (by decide) (by decide)

/-! ## Sync boundary: theorems -/

theorem pushedSeconds_append (sent : List SyncCall) (c : SyncCall) (d : String) :
    pushedSeconds (sent ++ [c]) d =
      pushedSeconds sent d + (if c.domain = d then c.timeSpent else 0) := by
  unfold pushedSeconds
  by_cases h : c.domain = d <;> simp [List.filter_append, List.filter_cons, h]

theorem accumulateOwn_sent (d category : String) (t : Int)
    (timeData : List (String × SiteTime)) (sent : List SyncCall) :
    (accumulateOwn d category t timeData sent).2 =
      if (tableTotal timeData d + t) % 60 = 0 then
        sent ++ [{ domain := d, timeSpent := 60, category := category }]
      else sent := by
  have hadd : ∀ e : SiteTime, (e.addTo category t).total = e.total := by
    intro e
    unfold SiteTime.addTo
    split_ifs <;> rfl
  have htot : (match timeData.lookup d with
      | some e => e
      | none =>
        ({ domain := d, productive := 0, unproductive := 0, neutral := 0, total := 0,
           category := category } : SiteTime)).total = tableTotal timeData d := by
    unfold tableTotal
    cases timeData.lookup d <;> rfl
  unfold accumulateOwn
  simp only [hadd, htot]
  split_ifs <;> rfl

/-- One attribution either leaves the table and the call log as they are (the
domain names an inherited member) or adds `t` to the domain's total and emits a
sync of 60 seconds exactly when the new total is a multiple of 60. -/
theorem accumulate_cases (d category : String) (t : Int)
    (timeData : List (String × SiteTime)) (sent : List SyncCall) :
    accumulate d category t timeData sent = (timeData, sent) ∨
    (tableTotal (accumulate d category t timeData sent).1 d = tableTotal timeData d + t ∧
      (accumulate d category t timeData sent).2 =
        if (tableTotal timeData d + t) % 60 = 0 then
          sent ++ [{ domain := d, timeSpent := 60, category := category }]
        else sent) := by
  by_cases h : timeData.lookup d = none ∧ d ∈ objectPrototypeKeys
  · left
    simp [accumulate, h]
  · right
    have hacc : accumulate d category t timeData sent
        = accumulateOwn d category t timeData sent := by
      simp only [accumulate, h, if_false]
    rw [hacc]
    exact ⟨tableTotal_accumulateOwn d category t timeData sent,
      accumulateOwn_sent d category t timeData sent⟩

theorem attributeAll_invariant (d category : String) :
    ∀ (amounts : List Int) (start : List (String × SiteTime) × List SyncCall),
      (∀ t ∈ amounts, 0 < t) →
      pushedSeconds start.2 d % 60 = 0 →
      pushedSeconds start.2 d ≤ tableTotal start.1 d →
      pushedSeconds (attributeAll d category amounts start).2 d % 60 = 0 ∧
      pushedSeconds (attributeAll d category amounts start).2 d
        ≤ tableTotal (attributeAll d category amounts start).1 d := by
  intro amounts
  induction amounts with
  | nil => intro start _ h1 h2; exact ⟨h1, h2⟩
  | cons t rest ih =>
    intro start hpos h1 h2
    have ht : 0 < t := hpos t (List.mem_cons_self _ _)
    have hstep : attributeAll d category (t :: rest) start =
        attributeAll d category rest (accumulate d category t start.1 start.2) := rfl
    rw [hstep]
    rcases accumulate_cases d category t start.1 start.2 with hid | ⟨htot, hsent⟩
    · rw [hid]
      exact ih (start.1, start.2) (fun u hu => hpos u (List.mem_cons_of_mem _ hu)) h1 h2
    · apply ih _ (fun u hu => hpos u (List.mem_cons_of_mem _ hu))
      · rw [hsent]
        split_ifs
        · rw [pushedSeconds_append]; simp; omega
        · exact h1
      · rw [hsent, htot]
        split_ifs
        · rw [pushedSeconds_append]; simp; omega
        · omega

/-- Starting from an empty local table, after any sequence of attributions
of positive whole seconds to one domain, the seconds pushed to the backend for
the domain never exceed its local total. -/
theorem pushed_le_total (d category : String) (amounts : List Int)
    (hpos : ∀ t ∈ amounts, 0 < t) :
    pushedSeconds (attributeAll d category amounts ([], [])).2 d
      ≤ tableTotal (attributeAll d category amounts ([], [])).1 d :=
  (attributeAll_invariant d category amounts ([], []) hpos (by simp [pushedSeconds])
    (by simp [pushedSeconds, tableTotal])).2

/-- Witness of `pushed_le_total`: attributions of 59, 1 and 61 seconds. -/
theorem pushed_le_total_witness :
    pushedSeconds (attributeAll "github.com" "productive" [59, 1, 61] ([], [])).2 "github.com"
      ≤ tableTotal (attributeAll "github.com" "productive" [59, 1, 61] ([], [])).1 "github.com" :=
  pushed_le_total "github.com" "productive" [59, 1, 61] (by decide)

theorem unit_ticks_invariant (d category : String) :
    ∀ (n : Nat) (start : List (String × SiteTime) × List SyncCall),
      0 ≤ tableTotal start.1 d - pushedSeconds start.2 d →
      tableTotal start.1 d - pushedSeconds start.2 d < 60 →
      pushedSeconds start.2 d % 60 = 0 →
      0 ≤ tableTotal (attributeAll d category (List.replicate n 1) start).1 d
          - pushedSeconds (attributeAll d category (List.replicate n 1) start).2 d ∧
      tableTotal (attributeAll d category (List.replicate n 1) start).1 d
          - pushedSeconds (attributeAll d category (List.replicate n 1) start).2 d < 60 := by
  intro n
  induction n with
  | zero => intro start h1 h2 _; exact ⟨h1, h2⟩
  | succ n ih =>
    intro start h1 h2 h3
    have hstep : attributeAll d category (List.replicate (n + 1) 1) start =
        attributeAll d category (List.replicate n 1) (accumulate d category 1 start.1 start.2) :=
      rfl
    rw [hstep]
    rcases accumulate_cases d category 1 start.1 start.2 with hid | ⟨htot, hsent⟩
    · rw [hid]
      exact ih (start.1, start.2) h1 h2 h3
    · apply ih
      · rw [hsent, htot]
        split_ifs
        · rw [pushedSeconds_append]; simp; omega
        · omega
      · rw [hsent, htot]
        split_ifs
        · rw [pushedSeconds_append]; simp; omega
        · omega
      · rw [hsent]
        split_ifs
        · rw [pushedSeconds_append]; simp; omega
        · exact h3

/-- When every attribution is exactly one second (every heartbeat on time),
the local total of the domain stays less than 60 seconds ahead of the seconds
pushed to the backend. -/
theorem unit_ticks_lag (d category : String) (n : Nat) :
    0 ≤ tableTotal (attributeAll d category (List.replicate n 1) ([], [])).1 d
        - pushedSeconds (attributeAll d category (List.replicate n 1) ([], [])).2 d ∧
    tableTotal (attributeAll d category (List.replicate n 1) ([], [])).1 d
        - pushedSeconds (attributeAll d category (List.replicate n 1) ([], [])).2 d < 60 :=
  unit_ticks_invariant d category n ([], []) (by simp [pushedSeconds, tableTotal])
    (by simp [pushedSeconds, tableTotal]) (by simp [pushedSeconds])

/-! ## Hostname normalisation and overview: further theorems -/

theorem replaceFirstChars_of_isPrefixOf (pat s : List Char) (h : pat.isPrefixOf s = true) :
    replaceFirstChars pat s = s.drop pat.length := by
  cases s with
  | nil =>
    cases pat with
    | nil => rfl
    | cons p ps => simp [List.isPrefixOf] at h
  | cons c cs => simp [replaceFirstChars, h]

theorem replaceFirstChars_of_not_includes (pat s : List Char)
    (h : includesChars s pat = false) : replaceFirstChars pat s = s := by
  induction s with
  | nil => rfl
  | cons c cs ih =>
    simp only [includesChars, Bool.or_eq_false_iff] at h
    simp [replaceFirstChars, h.1, ih h.2]

/-- A hostname that starts with `www.` loses exactly that leading prefix, and
a hostname that does not contain `www.` at all is recorded unchanged. -/
theorem normalizeHostname_spec (h : String) :
    (startsWith h "www." = true → normalizeHostname h = String.mk (h.toList.drop 4)) ∧
    (includes h "www." = false → normalizeHostname h = h) := by
  constructor
  · intro hs
    unfold normalizeHostname replaceFirst
    rw [replaceFirstChars_of_isPrefixOf _ _ hs]
    rfl
  · intro hi
    unfold normalizeHostname replaceFirst
    rw [replaceFirstChars_of_not_includes _ _ hi]
    rfl

theorem foldl_totals (summary : List (String × Summary)) (acc : Totals) :
    (summary.foldl
      (fun totals kv =>
        ({ productive := totals.productive + kv.2.productive,
           unproductive := totals.unproductive + kv.2.unproductive,
           neutral := totals.neutral + (kv.2.neutral + kv.2.unknown),
           total := totals.total + kv.2.total } : Totals)) acc).total
      = acc.total + (summary.map (fun kv => kv.2.total)).sum ∧
    (summary.foldl
      (fun totals kv =>
        ({ productive := totals.productive + kv.2.productive,
           unproductive := totals.unproductive + kv.2.unproductive,
           neutral := totals.neutral + (kv.2.neutral + kv.2.unknown),
           total := totals.total + kv.2.total } : Totals)) acc).productive
      = acc.productive + (summary.map (fun kv => kv.2.productive)).sum := by
  induction summary generalizing acc with
  | nil => simp
  | cons kv rest ih =>
    simp only [List.foldl_cons, List.map_cons, List.sum_cons]
    obtain ⟨h1, h2⟩ := ih
      { productive := acc.productive + kv.2.productive,
        unproductive := acc.unproductive + kv.2.unproductive,
        neutral := acc.neutral + (kv.2.neutral + kv.2.unknown),
        total := acc.total + kv.2.total }
    rw [h1, h2]
    constructor <;> simp only [] <;> omega

/-- The overview's `total` and `productive` are the sums of the fields of the
same name over all Domain Summaries, and the productivity score is 0 when the
overall total is 0 (sums below `2 ^ 53`). -/
theorem overview_sums (zone : TimeZone) (now : Int) (st : Store) :
    (summaryRoute zone now st).overview.total = (st.summary.map (fun kv => kv.2.total)).sum ∧
    (summaryRoute zone now st).overview.productive
      = (st.summary.map (fun kv => kv.2.productive)).sum ∧
    ((summaryRoute zone now st).overview.total = 0 →
      (summaryRoute zone now st).overview.productivityScore = 0) := by
  obtain ⟨h1, h2⟩ := foldl_totals st.summary
    { productive := 0, unproductive := 0, neutral := 0, total := 0 }
  refine ⟨?_, ?_, ?_⟩
  · simpa [summaryRoute, computeTotals] using h1
  · simpa [summaryRoute, computeTotals] using h2
  · intro h0
    simp only [summaryRoute] at h0 ⊢
    simp [productivityScore, h0]

/-! ## Productivity score: range -/

theorem roundHalfEven_le (n d c : Nat) (hd : 0 < d) (h : n ≤ c * d) :
    roundHalfEven n d ≤ c := by
  have hq : n / d ≤ c := Nat.div_le_of_le_mul (by rwa [Nat.mul_comm] at h)
  have hmod := Nat.div_add_mod n d
  unfold roundHalfEven
  simp only []
  by_cases h1 : 2 * (n % d) < d
  · simp [h1, hq]
  · have hr : 0 < n % d := by omega
    have hlt : n / d < c := by
      by_contra hcon
      have hge : c ≤ n / d := by omega
      have : c * d ≤ (n / d) * d := Nat.mul_le_mul_right d hge
      have h2 : d * (n / d) = (n / d) * d := Nat.mul_comm _ _
      omega
    simp only [h1, if_false]
    split_ifs <;> omega

theorem bitLength_spec : ∀ (fuel n : Nat), n ≤ fuel →
    n < 2 ^ bitLength fuel n ∧ (0 < n → 2 ^ (bitLength fuel n - 1) ≤ n) := by
  intro fuel
  induction fuel with
  | zero =>
    intro n hn
    have : n = 0 := by omega
    subst this
    simp [bitLength]
  | succ fuel ih =>
    intro n hn
    by_cases h0 : n = 0
    · subst h0
      simp [bitLength]
    · have hhalf : n / 2 ≤ fuel := by omega
      obtain ⟨h1, h2⟩ := ih (n / 2) hhalf
      simp only [bitLength, h0, if_false, Nat.add_sub_cancel]
      constructor
      · rw [Nat.pow_succ]
        omega
      · intro _
        by_cases h3 : n / 2 = 0
        · have : bitLength fuel (n / 2) = 0 := by
            rw [h3]
            cases fuel <;> simp [bitLength]
          rw [this]
          simp
          omega
        · have h4 := h2 (by omega)
          have hb : 0 < bitLength fuel (n / 2) := by
            by_contra hcon
            have : bitLength fuel (n / 2) = 0 := by omega
            rw [this] at h1
            simp at h1
            exact h3 h1
          have : 2 ^ bitLength fuel (n / 2) = 2 ^ (bitLength fuel (n / 2) - 1) * 2 := by
            rw [← Nat.pow_succ]
            congr 1
            omega
          omega

theorem log2Floor_spec (n : Nat) (hn : 0 < n) :
    2 ^ log2Floor n ≤ n ∧ n < 2 ^ (log2Floor n + 1) := by
  obtain ⟨h1, h2⟩ := bitLength_spec n n (le_refl _)
  unfold log2Floor
  have hb : 0 < bitLength n n := by
    by_contra hcon
    have : bitLength n n = 0 := by omega
    rw [this] at h1
    simp at h1
    omega
  refine ⟨h2 hn, ?_⟩
  have : bitLength n n - 1 + 1 = bitLength n n := by omega
  rw [this]
  exact h1

theorem roundToDouble_le (n d K : Nat) (hd : 0 < d) (hK : K ≤ 2 ^ 52) (h : n ≤ K * d) :
    (roundToDouble n d).num ≤ K * (roundToDouble n d).den ∧ 0 < (roundToDouble n d).den := by
  by_cases h0 : n = 0
  · simp [roundToDouble, h0]
  · have hn : 0 < n := Nat.pos_of_ne_zero h0
    have hdz : d ≠ 0 := by omega
    obtain ⟨ha1, _⟩ := log2Floor_spec n hn
    obtain ⟨_, hb2⟩ := log2Floor_spec d hd
    have hab : log2Floor n ≤ log2Floor d + 52 := by
      by_contra hcon
      have h53 : log2Floor d + 1 + 52 ≤ log2Floor n := by omega
      have hp : 2 ^ (log2Floor d + 1 + 52) ≤ 2 ^ log2Floor n :=
        Nat.pow_le_pow_right (by norm_num) h53
      rw [Nat.pow_add] at hp
      have h1 : K * d ≤ 2 ^ 52 * d := Nat.mul_le_mul_right d hK
      have h2 : 2 ^ 52 * d < 2 ^ 52 * 2 ^ (log2Floor d + 1) :=
        Nat.mul_lt_mul_of_pos_left hb2 (by positivity)
      have h3 : 2 ^ (log2Floor d + 1) * 2 ^ 52 = 2 ^ 52 * 2 ^ (log2Floor d + 1) :=
        Nat.mul_comm _ _
      omega
    have he : (if d * 2 ^ log2Floor n ≤ n * 2 ^ log2Floor d
        then ((log2Floor n : Nat) : Int) - ((log2Floor d : Nat) : Int)
        else ((log2Floor n : Nat) : Int) - ((log2Floor d : Nat) : Int) - 1) ≤ 52 := by
      split_ifs <;> omega
    simp only [roundToDouble, h0, hdz, or_self, if_false, he, if_true]
    constructor
    · apply roundHalfEven_le _ _ _ hd
      calc n * 2 ^ _ ≤ K * d * 2 ^ _ := Nat.mul_le_mul_right _ h
        _ = K * 2 ^ _ * d := by ring
    · positivity

theorem productivityScore_le (totals : Totals) (h : totals.productive ≤ totals.total) :
    productivityScore totals ≤ 100 := by
  unfold productivityScore
  split_ifs with ht
  · have hx := roundToDouble_le (totals.productive * 1) (1 * totals.total) 1 (by omega)
      (by norm_num) (by omega)
    obtain ⟨hx1, hx2⟩ := hx
    have hy := roundToDouble_le
      ((roundToDouble (totals.productive * 1) (1 * totals.total)).num * 100)
      ((roundToDouble (totals.productive * 1) (1 * totals.total)).den * 1) 100
      (by omega) (by norm_num) (by omega)
    obtain ⟨hy1, hy2⟩ := hy
    simp only [Dbl.div, Dbl.mul, Dbl.ofNat, mathRound]
    rw [Nat.div_le_iff_le_mul_add_pred (by omega)]
    omega
  · omega

theorem mem_of_lookup {β : Type} (k : String) (v : β) :
    ∀ (obj : List (String × β)), obj.lookup k = some v → (k, v) ∈ obj := by
  intro obj
  induction obj with
  | nil => intro h; simp at h
  | cons kv rest ih =>
    obtain ⟨k', v'⟩ := kv
    intro h
    by_cases hk : k = k'
    · subst hk
      simp [List.lookup_cons] at h
      simp [h]
    · have hk2 : (k == k') = false := by simpa using hk
      simp only [List.lookup_cons, hk2] at h
      exact List.mem_cons_of_mem _ (ih h)

theorem mem_replaceProp {β : Type} (k : String) (v : β) (x : String × β) :
    ∀ (obj : List (String × β)), x ∈ replaceProp k v obj → x = (k, v) ∨ x ∈ obj := by
  intro obj
  induction obj with
  | nil => intro h; simp [replaceProp] at h
  | cons kv rest ih =>
    obtain ⟨k', v'⟩ := kv
    intro h
    unfold replaceProp at h
    split_ifs at h
    · rcases List.mem_cons.mp h with h | h
      · exact Or.inl h
      · exact Or.inr (List.mem_cons_of_mem _ h)
    · rcases List.mem_cons.mp h with h | h
      · exact Or.inr (by simp [h])
      · rcases ih h with h | h
        · exact Or.inl h
        · exact Or.inr (List.mem_cons_of_mem _ h)

theorem mem_insertProp {β : Type} (k : String) (v : β) (x : String × β) :
    ∀ (obj : List (String × β)), x ∈ insertProp k v obj → x = (k, v) ∨ x ∈ obj := by
  intro obj
  induction obj with
  | nil => intro h; simpa [insertProp] using h
  | cons kv rest ih =>
    obtain ⟨k', v'⟩ := kv
    intro h
    unfold insertProp at h
    split at h
    · split_ifs at h
      · rcases List.mem_cons.mp h with h | h
        · exact Or.inl h
        · exact Or.inr h
      · rcases List.mem_cons.mp h with h | h
        · exact Or.inr (by simp [h])
        · rcases ih h with h | h
          · exact Or.inl h
          · exact Or.inr (List.mem_cons_of_mem _ h)
    · rcases List.mem_cons.mp h with h | h
      · exact Or.inl h
      · exact Or.inr h
    · rcases List.mem_cons.mp h with h | h
      · exact Or.inr (by simp [h])
      · rcases ih h with h | h
        · exact Or.inl h
        · exact Or.inr (List.mem_cons_of_mem _ h)

theorem mem_writeProp {β : Type} (k : String) (v : β) (x : String × β)
    (obj : List (String × β)) (h : x ∈ writeProp k v obj) : x = (k, v) ∨ x ∈ obj := by
  unfold writeProp at h
  split at h
  · exact mem_replaceProp k v x obj h
  · exact mem_insertProp k v x obj h

theorem updatedSite_productive_le (summary : List (String × Summary)) (d c : String) (t : Nat)
    (hinv : ∀ kv ∈ summary, kv.2.productive ≤ kv.2.total) :
    (updatedSite summary d c t).productive ≤ (updatedSite summary d c t).total := by
  have hsite : (summaryOrFresh summary d c).productive ≤ (summaryOrFresh summary d c).total := by
    unfold summaryOrFresh
    cases hl : summary.lookup d with
    | none => simp
    | some e => exact hinv (d, e) (mem_of_lookup d e summary hl)
  unfold updatedSite
  generalize summaryOrFresh summary d c = site at hsite
  simp only []
  generalize (if site.hasOwnProperty c = true then c else "unknown") = key
  unfold Summary.addTo
  split_ifs <;> (try dsimp only) <;> omega

theorem track_cases (isoNow : String) (body : TrackBody) (st : Store) :
    (track isoNow body st).2 = st ∨
    ∃ d c t stamp, (track isoNow body st).2 =
      { sessions := st.sessions ++
          [{ domain := d, timeSpent := t, category := c, timestamp := stamp }],
        summary := writeProp d (updatedSite st.summary d c t) st.summary } := by
  obtain ⟨d, t, c, ts⟩ := body
  cases d <;> cases t <;> cases c <;> simp [track]
  rename_i d t c
  by_cases hd : d = "" <;> by_cases hc : c = "" <;> simp [hd, hc]
  exact Or.inr ⟨d, c, t, ⟨rfl, rfl, rfl⟩, rfl⟩

theorem trackAll_productive_le (isoNow : String) :
    ∀ (bodies : List TrackBody) (st : Store),
      (∀ kv ∈ st.summary, kv.2.productive ≤ kv.2.total) →
      ∀ kv ∈ (trackAll isoNow bodies st).summary, kv.2.productive ≤ kv.2.total := by
  intro bodies
  induction bodies with
  | nil => intro st h; simpa [trackAll] using h
  | cons b rest ih =>
    intro st h
    have hstep : trackAll isoNow (b :: rest) st = trackAll isoNow rest (track isoNow b st).2 :=
      rfl
    rw [hstep]
    apply ih
    rcases track_cases isoNow b st with heq | ⟨d, c, t, stamp, heq⟩
    · rw [heq]; exact h
    · rw [heq]
      intro kv hkv
      rcases mem_writeProp _ _ _ _ hkv with hk | hk
      · rw [hk]
        exact updatedSite_productive_le st.summary d c t h
      · exact h kv hk

/-- For every store reached from the empty store by well-typed `POST /track`
requests, the productivity score answered by `GET /summary`, computed in double
precision, lies between 0 and 100 (ordinary domain keys, sums below `2 ^ 53`). -/
theorem productivityScore_range (zone : TimeZone) (now : Int) (isoNow : String)
    (bodies : List TrackBody) :
    0 ≤ (summaryRoute zone now (trackAll isoNow bodies Store.empty)).overview.productivityScore ∧
    (summaryRoute zone now (trackAll isoNow bodies Store.empty)).overview.productivityScore
      ≤ 100 := by
  refine ⟨Nat.zero_le _, ?_⟩
  have hinv := trackAll_productive_le isoNow bodies Store.empty (by simp [Store.empty])
  obtain ⟨h1, h2⟩ := foldl_totals (trackAll isoNow bodies Store.empty).summary
    { productive := 0, unproductive := 0, neutral := 0, total := 0 }
  simp only [summaryRoute]
  apply productivityScore_le
  simp only [computeTotals, h1, h2, Nat.zero_add]
  exact List.sum_le_sum (fun kv hkv => hinv kv hkv)

end FocusPulse
